import Mathlib

/-!
# Verification of the glFont TrueType parser core

Shallow embedding of the glFont repository (Rust) in Lean 4, covering:

* the generational arena `Slotmap` (`src/types/slotmap.rs`),
* the `ChecksumReader` (`src/types/io.rs`),
* the table decoders (`src/tables/*.rs`) and the tag dispatcher
  (`src/tables/mod.rs`),
* the SFNT parser `verify_header` / `open_font` (`src/font.rs`).

Modelling conventions:

* Machine integers are `Nat` with explicit truncation: bytes are reduced
  `% 256` where the Rust code reinterprets them as `u8`, 16-bit fields
  `% 65536`, 32-bit accumulators `% 2^32`.  Arithmetic follows Rust
  *release* semantics (wrapping) at the sites where the source either
  uses `overflowing_*` explicitly or cannot overflow; `usize`
  subtraction, which the source performs unchecked, wraps modulo `2^64`.
* A Rust panic (failed `assert!`, out-of-bounds index, `expect`,
  `unreachable!`, or a read of the inactive union variant) is modelled
  as `Option.none`; recoverable `Result` errors are `Except.error`.
* Byte sources are `List Nat`, consumed from the front; `std::io::Read`
  style short reads return the available prefix.
-/

namespace GlFont

/-! ## Generational arena (src/src/types/slotmap.rs)

A slot is a pair of a `SlotContent` and a `u16` version.  The Rust
source stores the content as an untagged `union { value, next_free }`;
the model uses a sum and treats a read of the inactive variant (which
would be undefined behaviour in Rust) as a panic. -/

inductive SlotContent (T : Type) where
  | value (v : T)
  | nextFree (n : Nat)
deriving DecidableEq, Repr

structure Slotmap (T : Type) where
  slots    : List (SlotContent T × Nat)
  nextFree : Nat
  numElems : Nat
deriving DecidableEq, Repr

/-- Key layout: `| index : u16 | version : u16 |` packed in a `u32`. -/
def keyIndex (k : Nat) : Nat := k / 65536

def keyVersion (k : Nat) : Nat := k % 65536

/-- `index << 16 | version` (the or is an add because `version < 2^16`). -/
def mkKey (i v : Nat) : Nat := i * 65536 + v

/-- `Slotmap::new`: one initial free slot with version 0. -/
def Slotmap.new (T : Type) : Slotmap T :=
  { slots := [(.nextFree 0, 0)], nextFree := 0, numElems := 0 }

/-- `Slotmap::push`.  The source first asserts `num_elems < u16::MAX - 1`,
then reads the version of slot `next_free` (an out-of-bounds index there
panics).  An odd version means the slot is occupied, so a fresh slot is
appended and the key index is taken from `num_elems`; an even version
means the slot is free, so its stored free-list link becomes the new
head and the slot is overwritten in place.  `avail_ver + 1` cannot wrap:
in the even branch `avail_ver ≤ 65534`. -/
def Slotmap.push {T : Type} (s : Slotmap T) (v : T) : Option (Slotmap T × Nat) :=
  if s.numElems < 65534 then
    match s.slots[s.nextFree]? with
    | none => none
    | some (content, availVer) =>
      if availVer % 2 = 1 then
        some ({ slots := s.slots ++ [(.value v, 1)],
                nextFree := s.numElems,
                numElems := s.numElems + 1 },
              mkKey s.numElems 1)
      else
        match content with
        | .nextFree nf =>
          some ({ slots := s.slots.set s.nextFree (.value v, availVer + 1),
                  nextFree := nf,
                  numElems := s.numElems + 1 },
                mkKey s.nextFree (availVer + 1))
        | .value _ => none
  else none

/-- `Slotmap::contains`: the source tests `!(len < index || slots[index].1 != version)`.
Note the strict `<`: for `index = len` the short-circuit fails and
`slots[index]` panics (out of bounds). -/
def Slotmap.contains {T : Type} (s : Slotmap T) (k : Nat) : Option Bool :=
  if s.slots.length < keyIndex k then
    some false
  else
    match s.slots[keyIndex k]? with
    | some (_, ver) => some (decide (ver = keyVersion k))
    | none => none

/-- `Slotmap::get`: validates via `contains`, then reads the `value`
union field (a free slot there would be a misread of the union). -/
def Slotmap.get {T : Type} (s : Slotmap T) (k : Nat) : Option (Option T) :=
  match s.contains k with
  | none => none
  | some false => some none
  | some true =>
    match s.slots[keyIndex k]? with
    | some (.value v, _) => some (some v)
    | _ => none

/-- `Slotmap::try_pop`: on success the slot is overwritten with
`(next_free := self.next_free, version + 1)`.  The source neither
updates `self.next_free` to point at the freed slot nor decrements
`num_elems`.  `version + 1` wraps as `u16`. -/
def Slotmap.tryPop {T : Type} (s : Slotmap T) (k : Nat) : Option (Slotmap T × Option T) :=
  match s.contains k with
  | none => none
  | some false => some (s, none)
  | some true =>
    match s.slots[keyIndex k]? with
    | some (.value v, _) =>
      some ({ slots := s.slots.set (keyIndex k) (.nextFree s.nextFree, (keyVersion k + 1) % 65536),
              nextFree := s.nextFree,
              numElems := s.numElems }, some v)
    | _ => none

/-- Version stored at slot `i` (in range only). -/
def slotVer {T : Type} (s : Slotmap T) (i : Nat) : Option Nat :=
  (s.slots[i]?).map (·.2)

inductive SMOp (T : Type) where
  | push (v : T)
  | tryPop (k : Nat)

def smStep {T : Type} (s : Slotmap T) : SMOp T → Option (Slotmap T)
  | .push v => (s.push v).map (·.1)
  | .tryPop k => (s.tryPop k).map (·.1)

def smRunFrom {T : Type} (s : Slotmap T) : List (SMOp T) → Option (Slotmap T)
  | [] => some s
  | op :: ops =>
    match smStep s op with
    | none => none
    | some s' => smRunFrom s' ops

def smRun {T : Type} (ops : List (SMOp T)) : Option (Slotmap T) :=
  smRunFrom (Slotmap.new T) ops

/-! ### Slotmap lemmas -/

theorem keyVersion_lt (k : Nat) : keyVersion k < 65536 :=
  Nat.mod_lt _ (by omega)

theorem succ_mod_65536_ne (v : Nat) : (v + 1) % 65536 ≠ v := by
  omega

/-- A successful `try_pop` gives back the untouched arena geometry with the
slot's version bumped to `(version + 1) % 2^16`. -/
theorem tryPop_some {T : Type} {s s₁ : Slotmap T} {k : Nat} {v : T}
    (h : s.tryPop k = some (s₁, some v)) :
    keyIndex k < s.slots.length ∧
    s₁.slots.length = s.slots.length ∧
    slotVer s₁ (keyIndex k) = some ((keyVersion k + 1) % 65536) := by
  unfold Slotmap.tryPop at h
  rcases hc : s.contains k with _ | b
  · rw [hc] at h; simp at h
  · rw [hc] at h
    cases b
    · simp at h
    · rcases hg : s.slots[keyIndex k]? with _ | ⟨c, ver⟩
      · rw [hg] at h; simp at h
      · rw [hg] at h
        cases c with
        | value w =>
          simp only [Option.some.injEq, Prod.mk.injEq] at h
          obtain ⟨hs, -⟩ := h
          have hlt : keyIndex k < s.slots.length := by
            by_contra hge
            rw [List.getElem?_eq_none (by omega)] at hg
            exact Option.noConfusion hg
          refine ⟨hlt, ?_, ?_⟩
          · rw [← hs]; exact List.length_set ..
          · rw [← hs]
            simp [slotVer, List.getElem?_set_eq_of_lt _ hlt]
        | nextFree n => simp at h

/-- If slot `keyIndex k` is in range and holds a version different from the
key's, both `contains` and `get` reject the key without panicking. -/
theorem contains_false_of_ver {T : Type} {s : Slotmap T} {k w : Nat}
    (h1 : keyIndex k < s.slots.length)
    (h2 : slotVer s (keyIndex k) = some w)
    (h3 : w ≠ keyVersion k) :
    s.contains k = some false ∧ s.get k = some none := by
  rcases hg : s.slots[keyIndex k]? with _ | ⟨c, ver⟩
  · rw [slotVer, hg] at h2; exact absurd h2 (by simp)
  · have hver : ver = w := by
      rw [slotVer, hg] at h2; simpa using h2
    have hcont : s.contains k = some false := by
      unfold Slotmap.contains
      rw [if_neg (by omega), hg]
      simp [hver, h3]
    exact ⟨hcont, by unfold Slotmap.get; rw [hcont]⟩

theorem smStep_length_mono {T : Type} {s s' : Slotmap T} {op : SMOp T}
    (h : smStep s op = some s') :
    s.slots.length ≤ s'.slots.length := by
  cases op with
  | push v =>
    simp only [smStep, Option.map_eq_some'] at h
    obtain ⟨⟨s'', key⟩, hp, rfl⟩ := h
    unfold Slotmap.push at hp
    split at hp
    · split at hp
      · exact absurd hp (by simp)
      · split at hp
        · simp only [Option.some.injEq, Prod.mk.injEq] at hp
          obtain ⟨rfl, -⟩ := hp
          simp
        · split at hp
          · simp only [Option.some.injEq, Prod.mk.injEq] at hp
            obtain ⟨rfl, -⟩ := hp
            simp
          · exact absurd hp (by simp)
    · exact absurd hp (by simp)
  | tryPop k =>
    simp only [smStep, Option.map_eq_some'] at h
    obtain ⟨⟨s'', r⟩, hp, rfl⟩ := h
    unfold Slotmap.tryPop at hp
    split at hp
    · exact absurd hp (by simp)
    · simp only [Option.some.injEq, Prod.mk.injEq] at hp
      obtain ⟨rfl, -⟩ := hp
      exact le_refl _
    · split at hp
      · simp only [Option.some.injEq, Prod.mk.injEq] at hp
        obtain ⟨rfl, -⟩ := hp
        simp
      · exact absurd hp (by simp)

theorem smRunFrom_length_mono {T : Type} {s s' : Slotmap T} {ops : List (SMOp T)}
    (h : smRunFrom s ops = some s') :
    s.slots.length ≤ s'.slots.length := by
  induction ops generalizing s with
  | nil =>
    simp only [smRunFrom, Option.some.injEq] at h
    rw [h]
  | cons op ops ih =>
    simp only [smRunFrom] at h
    rcases hs : smStep s op with _ | s₁ <;> rw [hs] at h
    · exact absurd h (by simp)
    · exact le_trans (smStep_length_mono hs) (ih h)

/-- `get` only answers positively when the stored slot version equals the
key's version field. -/
theorem get_some_version {T : Type} {s : Slotmap T} {k : Nat} {v : T}
    (h : s.get k = some (some v)) :
    slotVer s (keyIndex k) = some (keyVersion k) := by
  unfold Slotmap.get at h
  split at h
  · exact absurd h (by simp)
  · exact absurd h (by simp)
  · rename_i heq
    unfold Slotmap.contains at heq
    split at heq
    · exact absurd heq (by simp)
    · split at heq
      · rename_i c ver heq2
        simp only [Option.some.injEq, decide_eq_true_eq] at heq
        rw [slotVer, heq2, Option.map_some']
        exact congrArg some heq
      · exact absurd heq (by simp)

/-- C2 (confirmed). For every sequence of `push`/`try_pop` operations run
from a fresh `Slotmap`, (a) `get` returns a value only when the version
stored in the key equals the current version of the slot the key indexes,
and (b) after a successful `try_pop k`, `contains k` is `false` and
`get k` is `None`, and they remain so through any further run of
operations that leaves the slot's version unassigned (i.e. until a later
push reassigns the slot a new version). -/
theorem slotmap_generational_invariant {T : Type} (ops : List (SMOp T)) (s : Slotmap T)
    (_hrun : smRun ops = some s) :
    (∀ k v, s.get k = some (some v) → slotVer s (keyIndex k) = some (keyVersion k)) ∧
    (∀ k s₁ v, s.tryPop k = some (s₁, some v) →
      s₁.contains k = some false ∧ s₁.get k = some none ∧
      ∀ more s₂, smRunFrom s₁ more = some s₂ →
        slotVer s₂ (keyIndex k) = slotVer s₁ (keyIndex k) →
        s₂.contains k = some false ∧ s₂.get k = some none) := by
  refine ⟨fun k v h => get_some_version h, fun k s₁ v hpop => ?_⟩
  obtain ⟨hlt, hlen, hver⟩ := tryPop_some hpop
  have hne : (keyVersion k + 1) % 65536 ≠ keyVersion k := succ_mod_65536_ne _
  have hlt₁ : keyIndex k < s₁.slots.length := by rw [hlen]; exact hlt
  have hbase := contains_false_of_ver hlt₁ hver hne
  refine ⟨hbase.1, hbase.2, fun more s₂ hrun₂ hv₂ => ?_⟩
  have hlt₂ : keyIndex k < s₂.slots.length :=
    lt_of_lt_of_le hlt₁ (smRunFrom_length_mono hrun₂)
  exact contains_false_of_ver hlt₂ (hv₂.trans hver) hne

/-- Witness for C2 at a concrete run: `push 7` then `try_pop` of the
returned key `1` (index 0, version 1). -/
theorem slotmap_generational_invariant_witness :
    (⟨[(.nextFree 0, 2)], 0, 1⟩ : Slotmap Nat).contains 1 = some false :=
  ((slotmap_generational_invariant [SMOp.push 7] ⟨[(.value 7, 1)], 0, 1⟩ (by decide)).2
    1 ⟨[(.nextFree 0, 2)], 0, 1⟩ 7 (by decide)).1

/-- C3 (code_bug). After `try_pop` frees slot 1 (key `mkKey 1 1`), the next
`push` does **not** reuse slot 1: `try_pop` never updates the free-list
head `next_free` (and never decrements `num_elems`), so the push appends
a brand-new slot and returns key index 3 with version 1, while slot 1
stays free with version 2, unreachable from the free list. -/
theorem slotmap_free_slot_not_reused :
    (smRunFrom (Slotmap.new Nat)
        [.push 10, .push 11, .push 12, .tryPop (mkKey 1 1)]).bind
      (fun s => s.push 13)
    = some (⟨[(.value 10, 1), (.nextFree 2, 2), (.value 12, 1), (.value 13, 1)], 3, 4⟩,
            mkKey 3 1) := by
  decide

/-- C4 (code_bug). The `contains` bounds test is `len < index`, not
`len ≤ index`: on a fresh one-slot map, a key with index 1 (equal to the
slot count) reaches `slots[1]` and panics, as does `get`; only indexes
strictly greater than the slot count are rejected with `false`. -/
theorem slotmap_contains_at_len_panics :
    (Slotmap.new Nat).contains (mkKey 1 0) = none ∧
    (Slotmap.new Nat).get (mkKey 1 0) = none ∧
    (Slotmap.new Nat).contains (mkKey 2 0) = some false := by
  decide

/-! ## ChecksumReader (src/src/types/io.rs)

The reader wraps a byte source (here: the list of bytes it has not yet
handed out) and rolls every byte into a 32-bit accumulator `next_add`,
folding the accumulator into `checksum` whenever the running byte index
crosses a 4-byte boundary. -/

def U32 : Nat := 4294967296

/-- `next_add <<= 8; next_add |= u32::from(byte)`: the or is an add
because the low byte of the shifted accumulator is zero. -/
def shiftByte (acc b : Nat) : Nat := acc * 256 % U32 + b % 256

structure CRState where
  src      : List Nat
  idx      : Nat
  checksum : Nat
  nextAdd  : Nat
deriving DecidableEq, Repr

def crNew (src : List Nat) : CRState := ⟨src, 0, 0, 0⟩

/-- One byte through the accumulation loop of `ChecksumReader::read`. -/
def crByte (st : CRState) (b : Nat) : CRState :=
  let na := shiftByte st.nextAdd b
  if (st.idx + 1) % 4 = 0 then
    { st with idx := st.idx + 1, nextAdd := na, checksum := (st.checksum + na) % U32 }
  else
    { st with idx := st.idx + 1, nextAdd := na }

def crConsume (bs : List Nat) (st : CRState) : CRState := bs.foldl crByte st

/-- `ChecksumReader::read` with an `n`-byte buffer: a list source returns
`min n src.length` bytes (a short read is `Ok`). -/
def crRead (n : Nat) (st : CRState) : List Nat × CRState :=
  (st.src.take n, crConsume (st.src.take n) { st with src := st.src.drop n })

/-- `ChecksumReader::finish`: computes `remain = next_multiple_of(4) - index`
and **reads** that many bytes from the underlying source into a zeroed
3-byte garbage buffer (the comment in the source assumes `remain` is 0),
then shifts the first `remain` garbage entries into `next_add` once more
and, when `remain ≠ 0`, folds `next_add` into the checksum a final time.
Returns the checksum and the remaining source. -/
def crFinish (st : CRState) : Nat × List Nat :=
  let remain := (4 - st.idx % 4) % 4
  let p := crRead remain st
  let padded := p.1 ++ List.replicate (remain - p.1.length) 0
  let na := padded.foldl shiftByte p.2.nextAdd
  let cs := if remain ≠ 0 then (p.2.checksum + na) % U32 else p.2.checksum
  (cs, p.2.src)

/-- Big-endian 32-bit word of four bytes. -/
def word4 (a b c d : Nat) : Nat :=
  (a % 256) * 16777216 + (b % 256) * 65536 + (c % 256) * 256 + d % 256

/-- The big-endian 4-byte words of a byte list, the trailing 1–3 bytes
(if any) zero-padded to a full word: the word stream described by the
specification's checksum paragraph. -/
def beWords : List Nat → List Nat
  | a :: b :: c :: d :: rest => word4 a b c d :: beWords rest
  | [] => []
  | [a] => [word4 a 0 0 0]
  | [a, b] => [word4 a b 0 0]
  | [a, b, c] => [word4 a b c 0]

/-- Wrapping sum (mod `2^32`) of the big-endian words of a byte list,
trailing bytes zero-padded — the specification's checksum of `bs`. -/
def specChecksum (bs : List Nat) : Nat :=
  (beWords bs).foldl (fun a w => (a + w) % U32) 0

/-! ### ChecksumReader lemmas -/

/-- On a word-aligned state whose source is exhausted, running the
remaining bytes through the reader and then `finish` yields exactly the
specification checksum folded on top of the current checksum. -/
theorem crFinish_aligned : ∀ (bs : List Nat) (idx0 cs0 na0 : Nat),
    idx0 % 4 = 0 → cs0 < U32 →
    crFinish (crConsume bs ⟨[], idx0, cs0, na0⟩) =
      ((beWords bs).foldl (fun a w => (a + w) % U32) cs0, [])
  | [], idx0, cs0, na0, h4, _hcs => by
    have hr : (4 - idx0 % 4) % 4 = 0 := by omega
    show crFinish ⟨[], idx0, cs0, na0⟩ = _
    unfold crFinish crRead crConsume
    simp [hr, beWords]
  | [a], idx0, cs0, na0, h4, _hcs => by
    have h1 : (idx0 + 1) % 4 ≠ 0 := by omega
    have hr : (4 - (idx0 + 1) % 4) % 4 = 3 := by omega
    have hc : crConsume [a] ⟨[], idx0, cs0, na0⟩
        = ⟨[], idx0 + 1, cs0, shiftByte na0 a⟩ := by
      simp [crConsume, crByte, h1]
    rw [hc]
    unfold crFinish crRead crConsume
    simp only [hr, List.take_nil, List.drop_nil, List.foldl_nil, List.length_nil,
      Nat.sub_zero, List.nil_append, ne_eq, OfNat.ofNat_ne_zero, not_false_eq_true,
      if_pos, List.replicate, List.foldl_cons]
    refine Prod.ext ?_ rfl
    show (cs0 + shiftByte (shiftByte (shiftByte (shiftByte na0 a) 0) 0) 0) % U32 = _
    simp only [beWords, List.foldl_cons, List.foldl_nil]
    simp only [shiftByte, word4, U32]
    omega
  | [a, b], idx0, cs0, na0, h4, _hcs => by
    have h1 : (idx0 + 1) % 4 ≠ 0 := by omega
    have h2 : (idx0 + 2) % 4 ≠ 0 := by omega
    have hr : (4 - (idx0 + 2) % 4) % 4 = 2 := by omega
    have hc : crConsume [a, b] ⟨[], idx0, cs0, na0⟩
        = ⟨[], idx0 + 2, cs0, shiftByte (shiftByte na0 a) b⟩ := by
      simp only [crConsume, List.foldl_cons, List.foldl_nil, crByte]
      rw [if_neg h1]
      simp only []
      rw [if_neg (by omega : ¬ (idx0 + 1 + 1) % 4 = 0)]
    rw [hc]
    unfold crFinish crRead crConsume
    simp only [hr, List.take_nil, List.drop_nil, List.foldl_nil, List.length_nil,
      Nat.sub_zero, List.nil_append, ne_eq, OfNat.ofNat_ne_zero, not_false_eq_true,
      if_pos, List.replicate, List.foldl_cons]
    refine Prod.ext ?_ rfl
    show (cs0 + shiftByte (shiftByte (shiftByte (shiftByte na0 a) b) 0) 0) % U32 = _
    simp only [beWords, List.foldl_cons, List.foldl_nil]
    simp only [shiftByte, word4, U32]
    omega
  | [a, b, c], idx0, cs0, na0, h4, _hcs => by
    have h1 : (idx0 + 1) % 4 ≠ 0 := by omega
    have hr : (4 - (idx0 + 3) % 4) % 4 = 1 := by omega
    have hc : crConsume [a, b, c] ⟨[], idx0, cs0, na0⟩
        = ⟨[], idx0 + 3, cs0, shiftByte (shiftByte (shiftByte na0 a) b) c⟩ := by
      simp only [crConsume, List.foldl_cons, List.foldl_nil, crByte]
      rw [if_neg h1]
      simp only []
      rw [if_neg (by omega : ¬ (idx0 + 1 + 1) % 4 = 0)]
      simp only []
      rw [if_neg (by omega : ¬ (idx0 + 1 + 1 + 1) % 4 = 0)]
    rw [hc]
    unfold crFinish crRead crConsume
    simp only [hr, List.take_nil, List.drop_nil, List.foldl_nil, List.length_nil,
      Nat.sub_zero, List.nil_append, ne_eq, OfNat.ofNat_ne_zero, not_false_eq_true,
      if_pos, List.replicate, List.foldl_cons]
    refine Prod.ext ?_ rfl
    show (cs0 + shiftByte (shiftByte (shiftByte (shiftByte na0 a) b) c) 0) % U32 = _
    simp only [beWords, List.foldl_cons, List.foldl_nil]
    simp only [shiftByte, word4, U32]
    omega
  | a :: b :: c :: d :: rest, idx0, cs0, na0, h4, hcs => by
    have h1 : (idx0 + 1) % 4 ≠ 0 := by omega
    have hna : shiftByte (shiftByte (shiftByte (shiftByte na0 a) b) c) d
        = word4 a b c d := by
      simp only [shiftByte, word4, U32]
      omega
    have hc : crConsume (a :: b :: c :: d :: rest) ⟨[], idx0, cs0, na0⟩
        = crConsume rest ⟨[], idx0 + 4, (cs0 + word4 a b c d) % U32, word4 a b c d⟩ := by
      simp only [crConsume, List.foldl_cons, crByte]
      rw [if_neg h1]
      simp only []
      rw [if_neg (by omega : ¬ (idx0 + 1 + 1) % 4 = 0)]
      simp only []
      rw [if_neg (by omega : ¬ (idx0 + 1 + 1 + 1) % 4 = 0)]
      simp only []
      rw [if_pos (by omega : (idx0 + 1 + 1 + 1 + 1) % 4 = 0)]
      rw [show idx0 + 1 + 1 + 1 + 1 = idx0 + 4 from by omega, hna]
    rw [hc]
    rw [crFinish_aligned rest (idx0 + 4) ((cs0 + word4 a b c d) % U32)
      (word4 a b c d) (by omega) (Nat.mod_lt _ (by simp [U32]))]
    rw [show beWords (a :: b :: c :: d :: rest) = word4 a b c d :: beWords rest from rfl]
    rw [List.foldl_cons]

/-- C5 amended theorem: when the underlying source is exhausted by the
time `finish()` runs, its padding read returns nothing, the zeroed
garbage buffer supplies the padding, and the result is exactly the
wrapping sum of all big-endian 4-byte words with the trailing 1–3 bytes
zero-padded (the sum of the complete words alone when `n % 4 = 0`),
with nothing further consumed. -/
theorem checksum_finish_exhausted_spec (bs : List Nat) :
    crFinish (crRead bs.length (crNew bs)).2 = (specChecksum bs, []) := by
  have h : (crRead bs.length (crNew bs)).2 = crConsume bs ⟨[], 0, 0, 0⟩ := by
    simp [crRead, crNew]
  rw [h]
  exact crFinish_aligned bs 0 0 0 rfl (by simp [U32])

/-- C5 counterexample: a reader that consumed one byte `1` while its
source still holds `[2, 3, 4, 9]`.  `finish()` *reads* the three padding
bytes `2, 3, 4` from the source (leaving `[9]`), folds the completed
word `0x01020304` and then a second, re-shifted copy `0x04020304`,
returning `0x05040608` — not the zero-padded word `0x01000000 =
specChecksum [1]`, and not leaving the source untouched. -/
theorem checksum_finish_reads_padding :
    crFinish (crRead 1 (crNew [1, 2, 3, 4, 9])).2 = (84149768, [9]) ∧
    specChecksum [1] = 16777216 := by
  constructor <;> rfl

/-! ## Byte streams and parse results

The table decoders of the current (reader-based) generation consume a
sequential byte source.  A stream is the list of bytes not yet handed
out; reads take from the front.  Decoder outcomes distinguish a Rust
panic (`PRes.panic`) from a recoverable `ParseError` (`PRes.fail`). -/

/-- The error constructors of `src/src/types/mod.rs::Error` reachable from
the embedded code.  Error payloads keep just enough to tell errors apart. -/
inductive Err where
  | ioUnexpectedEnd (needed : Nat)
  | invalidSfntVersion (v : List Nat)
  | parsing (varName : String) (expected parsed : Nat)
  | invalidTag (tag : List Nat)
  | invalidVersion (location : String) (version : Nat)
  | unexpectedEop (location : String) (needed : Nat)
  | missingTable (missing inTable : String)
deriving DecidableEq, Repr

inductive PRes (α : Type) where
  | panic
  | fail (e : Err)
  | ok (v : α)
deriving DecidableEq, Repr

def PRes.bind {α β : Type} : PRes α → (α → PRes β) → PRes β
  | .panic, _ => .panic
  | .fail e, _ => .fail e
  | .ok v, f => f v

instance : Monad PRes where
  pure := PRes.ok
  bind := PRes.bind

def liftE {α : Type} : Except Err α → PRes α
  | .error e => .fail e
  | .ok v => .ok v

/-- `u32` wrapping subtraction (release semantics). -/
def u32sub (a b : Nat) : Nat := (a % U32 + U32 - b % U32) % U32

/-- `usize` wrapping subtraction (release semantics, 64-bit target). -/
def U64 : Nat := 18446744073709551616

def u64sub (a b : Nat) : Nat := (a % U64 + U64 - b % U64) % U64

/-- Big-endian value of a byte list. -/
def beNum (bs : List Nat) : Nat := bs.foldl (fun a b => a * 256 + b % 256) 0

/-- `read` into an `n`-byte buffer: returns the available prefix
(truncated to bytes) and the rest of the stream; a short read is `Ok`. -/
def rdBytes (n : Nat) (s : List Nat) : List Nat × List Nat :=
  ((s.take n).map (· % 256), s.drop n)

/-- `read_int::<T>()` with `size_of::<T>() = n`: errors with
`CoreReadError::UnexpectedEnd(missing)` unless `n` bytes are available,
else yields the big-endian value. -/
def rdInt (n : Nat) (s : List Nat) : Except Err (Nat × List Nat) :=
  if n ≤ s.length then .ok (beNum (s.take n), s.drop n)
  else .error (.ioUnexpectedEnd (n - s.length))

/-- `skip(n)`: reads byte-by-byte, stopping early at end of stream;
returns the number skipped. -/
def skipN (n : Nat) (s : List Nat) : Nat × List Nat :=
  (min n s.length, s.drop n)

/-- Two's-complement reading of a 16-bit big-endian value. -/
def toI16 (v : Nat) : Int :=
  if v % 65536 < 32768 then ((v % 65536 : Nat) : Int) else ((v % 65536 : Nat) : Int) - 65536

/-! ## Decoded table types (src/src/tables) -/

structure HeadT where
  unitsPerEm         : Nat
  smallestPxSize     : Nat
  style              : Nat
  checksumAdjustment : Nat
  longOffset         : Bool
deriving DecidableEq, Repr

inductive MaxpT where
  | ver05 (numGlyphs : Nat)
  | ver10 (numGlyphs : Nat)
deriving DecidableEq, Repr

def MaxpT.numGlyphs : MaxpT → Nat
  | .ver05 n => n
  | .ver10 n => n

structure Glyph where
  numContours : Int
  xMin        : Int
  yMin        : Int
  xMax        : Int
  yMax        : Int
  endPts      : List Nat
  points      : List (Int × Int × Bool)
deriving DecidableEq, Repr

/-- `name::RecordType` (src/src/tables/name.rs). -/
inductive RecordType where
  | copyright | family | subfamily | uniqueIdentifier | full | version
  | postScript | trademark | manufacturer | designer | description
  | vendorURL | designerURL | license | licenseURL | typographicFamily
  | typographicSubfamily | compatFull | sample | postScriptCID
  | wwsFamily | wwsSubFamily | lightPalette | darkPalette
  | postScriptVariations | reserved
  | fontSpecific (id : Nat)
deriving DecidableEq, Repr

/-- `impl From<u16> for RecordType`: ids ≥ 32768 hit `unreachable!`. -/
def recordTypeOf (v : Nat) : Option RecordType :=
  match v with
  | 0 => some .copyright
  | 1 => some .family
  | 2 => some .subfamily
  | 3 => some .uniqueIdentifier
  | 4 => some .full
  | 5 => some .version
  | 6 => some .postScript
  | 7 => some .trademark
  | 8 => some .manufacturer
  | 9 => some .designer
  | 10 => some .description
  | 11 => some .vendorURL
  | 12 => some .designerURL
  | 13 => some .license
  | 14 => some .licenseURL
  | 16 => some .typographicFamily
  | 17 => some .typographicSubfamily
  | 18 => some .compatFull
  | 19 => some .sample
  | 20 => some .postScriptCID
  | 21 => some .wwsFamily
  | 22 => some .wwsSubFamily
  | 23 => some .lightPalette
  | 24 => some .darkPalette
  | 25 => some .postScriptVariations
  | _ =>
    if v < 256 then some .reserved
    else if v ≤ 32767 then some (.fontSpecific v)
    else none

structure NameRec where
  name   : RecordType
  string : List Nat
deriving DecidableEq, Repr

structure NameT where
  records : List NameRec
deriving DecidableEq, Repr

inductive Table where
  | glyf (g : List Glyph)
  | maxp (m : MaxpT)
  | loca (offsets : List Nat)
  | head (h : HeadT)
  | name (n : NameT)
deriving DecidableEq, Repr

def findHead : List Table → Option HeadT
  | [] => none
  | .head h :: _ => some h
  | _ :: rest => findHead rest

def findMaxp : List Table → Option MaxpT
  | [] => none
  | .maxp m :: _ => some m
  | _ :: rest => findMaxp rest

def findLoca : List Table → Option (List Nat)
  | [] => none
  | .loca l :: _ => some l
  | _ :: rest => findLoca rest

/-! ## UTF-16 decoding (src/src/tables/name.rs) -/

/-- Big-endian 16-bit units of a byte list (the destructive in-place
byte swap on little-endian hosts amounts to interpreting consecutive
byte pairs big-endian). -/
def beU16s : List Nat → List Nat
  | a :: b :: r => ((a % 256) * 256 + b % 256) :: beU16s r
  | _ => []

/-- `char::decode_utf16` with `unwrap_or(REPLACEMENT_CHARACTER)`: yields
scalar values, replacing every unpaired surrogate with `0xFFFD`.  A high
surrogate followed by a non-low unit produces a replacement and the
follower is reconsidered on its own. -/
def decodeUtf16 : List Nat → List Nat
  | [] => []
  | [u] => if u < 0xD800 ∨ 0xDFFF < u then [u] else [0xFFFD]
  | u :: v :: rest =>
    if u < 0xD800 ∨ 0xDFFF < u then u :: decodeUtf16 (v :: rest)
    else if u ≤ 0xDBFF then
      if 0xDC00 ≤ v ∧ v ≤ 0xDFFF then
        (0x10000 + (u - 0xD800) * 1024 + (v - 0xDC00)) :: decodeUtf16 rest
      else 0xFFFD :: decodeUtf16 (v :: rest)
    else 0xFFFD :: decodeUtf16 (v :: rest)

/-- `Record::from_utf16`: `bytemuck::try_cast_slice_mut` panics unless the
byte slice splits into 16-bit units (odd length ⇒ panic), then the units
are decoded as big-endian UTF-16 with replacement. -/
def fromUtf16 (bytes : List Nat) : Option (List Nat) :=
  if bytes.length % 2 = 0 then some (decodeUtf16 (beU16s bytes)) else none

/-- `Record::from_bytes`: the accepted platform/encoding patterns are
`(0, 3..4, _) | (3, 1 | 10, _)` — note `3..4` is an *exclusive* range
pattern, covering only encoding 3.  Everything else panics
(`"Unrecognised record!"`). -/
def recordFromBytes (platformId encodingId _languageId : Nat) (name : RecordType)
    (bytes : List Nat) : Option NameRec :=
  if (platformId = 0 ∧ 3 ≤ encodingId ∧ encodingId < 4) ∨
     (platformId = 3 ∧ (encodingId = 1 ∨ encodingId = 10)) then
    (fromUtf16 bytes).map (fun str => ⟨name, str⟩)
  else none

/-! ## Table decoders

`src/src/tables/head.rs` and `maxp.rs` still carry the pre-refactor
slice-based signature (`data: CoreVec<u8>`), which the dispatcher in
`tables/mod.rs` — it hands every decoder a reader — cannot call, and the
slice-based `head` type lacks the `checksum_adjustment` field that
`font.rs` reads.  The reader-based `head`/`maxp` decoders are therefore
modelled from the spec (§4.3); the slice-based `head` decoder is also
embedded verbatim further below for the version-check claim. -/

/-- Modelled from the spec: reader-based `head` decoder (§4.3): validates
version 1.0, magic `0x5F0F3CF5`, `unitsPerEm ∈ [16,16384]`,
`indexToLocFormat ∈ {0,1}`, `glyphDataFormat == 0`, retains
`checksumAdjustment` for the whole-file checksum step, and consumes the
54 bytes of the fields it reads or skips. -/
def headParse (_prev : List Table) (s : List Nat) : PRes (HeadT × List Nat) := do
  let (major, s1) ← liftE (rdInt 2 s)
  let (minor, s2) ← liftE (rdInt 2 s1)
  if major = 1 ∧ minor = 0 then
    let (_fontRev, s3) ← liftE (rdInt 4 s2)
    let (csAdj, s4) ← liftE (rdInt 4 s3)
    let (magic, s5) ← liftE (rdInt 4 s4)
    if magic = 0x5F0F3CF5 then
      let (_flags, s6) ← liftE (rdInt 2 s5)
      let (upem, s7) ← liftE (rdInt 2 s6)
      if 16 ≤ upem ∧ upem ≤ 16384 then
        let (_created, s8) ← liftE (rdInt 8 s7)
        let (_modified, s9) ← liftE (rdInt 8 s8)
        let (_bbox, s10) ← liftE (rdInt 8 s9)
        let (style, s11) ← liftE (rdInt 2 s10)
        let (px, s12) ← liftE (rdInt 2 s11)
        let (_dirHint, s13) ← liftE (rdInt 2 s12)
        let (locFmt, s14) ← liftE (rdInt 2 s13)
        if locFmt ≤ 1 then
          let (gdf, s15) ← liftE (rdInt 2 s14)
          if gdf = 0 then
            pure (⟨upem, px, style, csAdj, locFmt == 1⟩, s15)
          else PRes.fail (.parsing "head::glyphDataFormat" 0 gdf)
        else PRes.fail (.parsing "head::indexToLocFormat" 1 locFmt)
      else PRes.fail (.parsing "head::unitsPerEm" (if upem < 16 then 16 else 16384) upem)
    else PRes.fail (.parsing "head::magic" 0x5F0F3CF5 magic)
  else PRes.fail (.invalidVersion "head" (major * 65536 + minor))

/-- Modelled from the spec: reader-based `maxp` decoder (§4.3):
version-dispatch on the packed 32-bit tag, retaining only `numGlyphs`. -/
def maxpParse (_prev : List Table) (s : List Nat) : PRes (MaxpT × List Nat) := do
  let (ver, s1) ← liftE (rdInt 4 s)
  if ver = 0x00005000 then
    let (ng, s2) ← liftE (rdInt 2 s1)
    pure (.ver05 ng, s2)
  else if ver = 0x00010000 then
    let (ng, s2) ← liftE (rdInt 2 s1)
    pure (.ver10 ng, s2)
  else PRes.fail (.invalidVersion "maxp" ver)

/-- The offset-reading loop of `loca::parse_table`: long format reads a
`u32` per entry, short format a `u16` doubled; each offset must be
`≥` its predecessor or the decoder fails naming `"loca"`. -/
def locaOffsets (long : Bool) : Nat → Nat → List Nat → List Nat →
    Except Err (List Nat × List Nat)
  | 0, _prevOff, acc, s => .ok (acc.reverse, s)
  | count + 1, prevOff, acc, s => do
    let (raw, s1) ← if long then rdInt 4 s else rdInt 2 s
    let off := if long then raw else raw * 2
    if off < prevOff then
      .error (.parsing "loca" ((prevOff + 1) % U32) off)
    else
      locaOffsets long count off (off :: acc) s1

/-- `loca::parse_table` (src/src/tables/loca.rs): requires `head` (offset
width) and `maxp` (glyph count), then reads `numGlyphs + 1`
non-decreasing offsets. -/
def locaParse (prev : List Table) (s : List Nat) : PRes (List Nat × List Nat) :=
  match findHead prev with
  | none => PRes.fail (.missingTable "head" "loca")
  | some h =>
    match findMaxp prev with
    | none => PRes.fail (.missingTable "maxp" "loca")
    | some m => liftE (locaOffsets h.longOffset (m.numGlyphs + 1) 0 [] s)

/-- The `NameRecord` loop of `name::parse_table`: reads six `u16` fields
per record, accumulating `(platform, encoding, language, nameId, begin,
end)` and the running maximum `end` as the storage-area length. -/
def nameRecInfos : Nat → List (Nat × Nat × Nat × Nat × Nat × Nat) → Nat → List Nat →
    Except Err (List (Nat × Nat × Nat × Nat × Nat × Nat) × Nat × List Nat)
  | 0, acc, storLen, s => .ok (acc.reverse, storLen, s)
  | n + 1, acc, storLen, s => do
    let (p, s1) ← rdInt 2 s
    let (e, s2) ← rdInt 2 s1
    let (lang, s3) ← rdInt 2 s2
    let (nm, s4) ← rdInt 2 s3
    let (len, s5) ← rdInt 2 s4
    let (off, s6) ← rdInt 2 s5
    nameRecInfos n ((p, e, lang, nm, off, off + len) :: acc) (max storLen (off + len)) s6

/-- The version-1 `LangTagRecord` loop: only the storage-area length
accounting is kept. -/
def nameLangTags : Nat → Nat → List Nat → Except Err (Nat × List Nat)
  | 0, storLen, s => .ok (storLen, s)
  | n + 1, storLen, s => do
    let (len, s1) ← rdInt 2 s
    let (off, s2) ← rdInt 2 s1
    nameLangTags n (max storLen (off + len)) s2

/-- Decoding each record's slice of the storage area; an unsupported
platform/encoding or a name id ≥ 32768 panics. -/
def nameBuildRecords : List (Nat × Nat × Nat × Nat × Nat × Nat) → List Nat →
    PRes (List NameRec)
  | [], _storage => pure []
  | (p, e, lang, nm, b, en) :: rest, storage =>
    match recordTypeOf nm with
    | none => PRes.panic
    | some rt =>
      match recordFromBytes p e lang rt ((storage.drop b).take (en - b)) with
      | none => PRes.panic
      | some r => do
        let rs ← nameBuildRecords rest storage
        pure (r :: rs)

/-- `name::parse_table` (src/src/tables/name.rs): header, record infos,
optional language-tag accounting, skip to the storage area (tolerating
offset drift), bulk-read the storage area, then decode every record. -/
def nameParse (_prev : List Table) (s0 : List Nat) : PRes (NameT × List Nat) := do
  let (version, s1) ← liftE (rdInt 2 s0)
  let (numRecords, s2) ← liftE (rdInt 2 s1)
  let (storageOffset, s3) ← liftE (rdInt 2 s2)
  let (infos, storLen0, s4) ← liftE (nameRecInfos numRecords [] 0 s3)
  let (storLen, s5) ←
    if version = 1 then do
      let (ntr, s4a) ← liftE (rdInt 2 s4)
      liftE (nameLangTags ntr storLen0 s4a)
    else pure (storLen0, s4)
  -- current_index = the TrackingReader's count of bytes consumed so far
  let tr := s0.length - s5.length
  let s6 := if storageOffset ≠ tr then (skipN (u64sub storageOffset tr) s5).2 else s5
  let (storage, s7) := rdBytes storLen s6
  if storage.length < storLen then
    PRes.fail (.unexpectedEop "name::storage_area" (storLen - storage.length))
  else do
    let recs ← nameBuildRecords infos storage
    pure (⟨recs⟩, s7)

/-! ### glyf decoder (src/src/tables/glyf.rs) -/

/-- `flags & !Flags::REPEAT`: clears bit 3. -/
def clearRepeat (f : Nat) : Nat := f % 8 + f / 16 * 16

/-- `loca::Type::index`: asserts `idx < offsets.len() - 1` (otherwise the
assertion or the indexing panics) and yields `(offset, next - offset)`
with `u32` wrapping subtraction. -/
def locaIndex (offsets : List Nat) (idx : Nat) : Option (Nat × Nat) :=
  if idx + 1 < offsets.length then
    some (offsets.getD idx 0, u32sub (offsets.getD (idx + 1) 0) (offsets.getD idx 0))
  else none

/-- The run-length flag loop: reads a flag byte, duplicates it
`1 + repeatCount` times with the repeat bit cleared, until exactly
`numPoints` flags are collected.  The loop condition is `≠`, so an
overshoot keeps reading until the stream errors out.  Each iteration
consumes at least one byte, so `fuel = stream length + 1` makes the
fuel-exhaustion branch unreachable. -/
def readFlags (fuel : Nat) (numPoints : Nat) (acc : List Nat) (s : List Nat) :
    PRes (List Nat × List Nat) :=
  match fuel with
  | 0 => .panic
  | fuel + 1 =>
    if acc.length = numPoints then pure (acc, s)
    else do
      let (f, s1) ← liftE (rdInt 1 s)
      if f / 8 % 2 = 1 then do
        let (r, s2) ← liftE (rdInt 1 s1)
        readFlags fuel numPoints (acc ++ List.replicate (1 + r) (clearRepeat f)) s2
      else
        readFlags fuel numPoints (acc ++ [clearRepeat f]) s1

/-- The `read_coords!` macro: one delta per flag, selected by the short
and sign/skip bits (X: bits 1 and 4, divisors 2 and 16; Y: bits 2 and 5,
divisors 4 and 32).  Short+sign ⇒ `+u8`, short+no-sign ⇒ `-u8`,
long ⇒ signed 16-bit, not-short+sign ⇒ 0. -/
def readCoords (shortDiv signDiv : Nat) : List Nat → List Nat →
    Except Err (List Int × List Nat)
  | [], s => .ok ([], s)
  | f :: fs, s =>
    match
      (if f / shortDiv % 2 = 1 then
        if f / signDiv % 2 = 1 then
          match rdInt 1 s with
          | .error e => .error e
          | .ok (v, s1) => .ok ((v : Int), s1)
        else
          match rdInt 1 s with
          | .error e => .error e
          | .ok (v, s1) => .ok (-(v : Int), s1)
      else if f / signDiv % 2 = 1 then .ok ((0 : Int), s)
      else
        match rdInt 2 s with
        | .error e => .error e
        | .ok (v, s1) => .ok (toI16 v, s1) : Except Err (Int × List Nat)) with
    | .error e => .error e
    | .ok (d, s1) =>
      match readCoords shortDiv signDiv fs s1 with
      | .error e => .error e
      | .ok (rest, s2) => .ok (d :: rest, s2)

def rdU16List : Nat → List Nat → Except Err (List Nat × List Nat)
  | 0, s => .ok ([], s)
  | n + 1, s => do
    let (v, s1) ← rdInt 2 s
    let (vs, s2) ← rdU16List n s1
    .ok (v :: vs, s2)

/-- The instruction-skipping loop: one `read_int::<u8>` per byte. -/
def skipBytes1 : Nat → List Nat → Except Err (List Nat)
  | 0, s => .ok s
  | n + 1, s => do
    let (_b, s1) ← rdInt 1 s
    skipBytes1 n s1

/-- `izip!(flags, x, y).map(|(f, x, y)| (x, y, f & ON_CURVE != 0))`. -/
def zip3Points : List Nat → List Int → List Int → List (Int × Int × Bool)
  | f :: fs, x :: xs, y :: ys => (x, y, f % 2 == 1) :: zip3Points fs xs ys
  | _, _, _ => []

def emptyGlyph : Glyph := ⟨0, 0, 0, 0, 0, [], []⟩

/-- The per-glyph loop of `glyf::parse_table`, counting down the
remaining glyph indices.  `tr` is the TrackingReader's byte count since
the decoder started. -/
def glyfGlyphs (offsets : List Nat) : Nat → Nat → List Glyph → List Nat → Nat → Bool →
    PRes (List Glyph × List Nat)
  | 0, _idx, glyphs, s, _tr, _pc => pure (glyphs, s)
  | n + 1, idx, glyphs, s, tr, pc =>
    match locaIndex offsets idx with
    | none => .panic
    | some (off, len) =>
      if len = 0 then
        glyfGlyphs offsets n (idx + 1) (glyphs ++ [emptyGlyph]) s tr pc
      else
        -- `reader.skip(offset - total_read)` with usize wrapping, then the
        -- explicit position check
        let skp := skipN (u64sub off tr) s
        let s1 := skp.2
        let tr1 := tr + skp.1
        if tr1 ≠ off then PRes.fail (.unexpectedEop "glyf" (u64sub off tr1))
        else do
          let (ncRaw, s2) ← liftE (rdInt 2 s1)
          let nc := toI16 ncRaw
          let (xMinR, s3) ← liftE (rdInt 2 s2)
          let (yMinR, s4) ← liftE (rdInt 2 s3)
          let (xMaxR, s5) ← liftE (rdInt 2 s4)
          let (yMaxR, s6) ← liftE (rdInt 2 s5)
          if nc < 0 then
            -- composite glyph: substitute a clone of glyph 0
            match glyphs[0]? with
            | none => PRes.panic
            | some g0 =>
              glyfGlyphs offsets n (idx + 1) (glyphs ++ [g0]) s6
                (tr1 + (s1.length - s6.length)) true
          else do
            let (endPts, s7) ← liftE (rdU16List nc.toNat s6)
            let (ni, s8) ← liftE (rdInt 2 s7)
            let s9 ← liftE (skipBytes1 ni s8)
            match endPts.getLast? with
            | none => PRes.panic   -- `end_pts.last().expect("No points in Glyph")`
            | some lastPt => do
              let (flags, s10) ← readFlags (s9.length + 1) (lastPt + 1) [] s9
              let (xs, s11) ← liftE (readCoords 2 16 flags s10)
              let (ys, s12) ← liftE (readCoords 4 32 flags s11)
              glyfGlyphs offsets n (idx + 1)
                (glyphs ++ [⟨nc, toI16 xMinR, toI16 yMinR, toI16 xMaxR, toI16 yMaxR,
                  endPts, zip3Points flags xs ys⟩])
                s12 (tr1 + (s1.length - s12.length)) false

/-- `glyf::parse_table`: requires `loca`; iterates `loca.len()` glyph
indices. -/
def glyfParse (prev : List Table) (s : List Nat) : PRes (List Glyph × List Nat) :=
  match findLoca prev with
  | none => PRes.fail (.missingTable "loca" "glyf")
  | some offsets => glyfGlyphs offsets (offsets.length - 1) 0 [] s 0 false

/-! ## Tag dispatcher (src/src/tables/mod.rs)

`create_table! { glyf, maxp, loca, head, name }` generates a match over
exactly these five tags; every other tag — `hhea` and `hmtx` included,
whose decoder files exist but are not registered in the macro (nor even
declared as modules) — falls through to `InvalidTag`. -/

def glyfTagB : List Nat := [103, 108, 121, 102]

def maxpTagB : List Nat := [109, 97, 120, 112]

def locaTagB : List Nat := [108, 111, 99, 97]

def headTagB : List Nat := [104, 101, 97, 100]

def nameTagB : List Nat := [110, 97, 109, 101]

def hheaTagB : List Nat := [104, 104, 101, 97]

def hmtxTagB : List Nat := [104, 109, 116, 120]

def parseTable (prev : List Table) (tag : List Nat) (s : List Nat) :
    PRes (Table × List Nat) :=
  if tag = glyfTagB then (glyfParse prev s).bind fun r => pure (Table.glyf r.1, r.2)
  else if tag = maxpTagB then (maxpParse prev s).bind fun r => pure (Table.maxp r.1, r.2)
  else if tag = locaTagB then (locaParse prev s).bind fun r => pure (Table.loca r.1, r.2)
  else if tag = headTagB then (headParse prev s).bind fun r => pure (Table.head r.1, r.2)
  else if tag = nameTagB then (nameParse prev s).bind fun r => pure (Table.name r.1, r.2)
  else PRes.fail (.invalidTag tag)

/-! ## Slice-based head decoder (src/src/tables/head.rs)

The pre-refactor decoder takes the whole table as a byte slice.  Field
accesses are `data[a..b]` slicings, which panic when the slice is short
— before the `map_err(UnexpectedEop)` on the array conversion can ever
fire.  Its version check reads `major_version != 1 && minor_version != 0`. -/

structure HeadData where
  unitsPerEm     : Nat
  smallestPxSize : Nat
  style          : Nat
  longOffset     : Bool
deriving DecidableEq, Repr

/-- `data[a..b]` as a big-endian integer; `none` when the range escapes
the slice (a panic in Rust). -/
def sliceBE (data : List Nat) (a b : Nat) : Option Nat :=
  if b ≤ data.length then some (beNum ((data.drop a).take (b - a))) else none

def headParseData (data : List Nat) : PRes HeadData :=
  match sliceBE data 0 2, sliceBE data 2 4 with
  | some major, some minor =>
    -- the source's check: `if major_version != 1 && minor_version != 0`
    if major ≠ 1 ∧ minor ≠ 0 then
      PRes.fail (.invalidVersion "head" (major * 65536 + minor))
    else
      match sliceBE data 4 8 with
      | none => .panic
      | some _fontRev =>
        match sliceBE data 12 16 with
        | none => .panic
        | some magic =>
          if magic ≠ 0x5F0F3CF5 then PRes.fail (.parsing "head::magic" 0x5F0F3CF5 magic)
          else
            match sliceBE data 18 20 with
            | none => .panic
            | some upem =>
              if ¬ (16 ≤ upem ∧ upem ≤ 16384) then
                PRes.fail (.parsing "head::unitsPerEm"
                  (if upem < 16 then 16 else 16384) upem)
              else
                match sliceBE data 20 28, sliceBE data 28 36 with
                | some _created, some _modified =>
                  match sliceBE data 44 46, sliceBE data 46 48 with
                  | some style, some px =>
                    match sliceBE data 50 52 with
                    | none => .panic
                    | some locFmt =>
                      if locFmt > 1 then
                        PRes.fail (.parsing "head::indexToLocFormat" 1 locFmt)
                      else
                        match sliceBE data 52 54 with
                        | none => .panic
                        | some gdf =>
                          if gdf ≠ 0 then
                            PRes.fail (.parsing "head::glyphDataFormat" 0 gdf)
                          else .ok ⟨upem, px, style, locFmt == 1⟩
                  | _, _ => .panic
                | _, _ => .panic
  | _, _ => .panic

/-! ## C7: head version check -/

/-- C7 (code_bug). The head decoder's version check is
`major_version != 1 && minor_version != 0` — a `&&` where rejecting
everything but 1.0 needs `||`.  A head table with
(majorVersion, minorVersion) = (2, 0) (and every pair with major = 1 or
minor = 0) passes the version check and decodes successfully; only pairs
with both fields off (here (2, 1)) are rejected. -/
theorem head_version_check_accepts_2_0 :
    headParseData ([0, 2, 0, 0, 0, 0, 0, 0, 0, 0, 0, 0, 95, 15, 60, 245, 0, 0, 3, 232]
      ++ List.replicate 34 0) = PRes.ok ⟨1000, 0, 0, false⟩ ∧
    headParseData ([0, 2, 0, 1, 0, 0, 0, 0, 0, 0, 0, 0, 95, 15, 60, 245, 0, 0, 3, 232]
      ++ List.replicate 34 0) = PRes.fail (.invalidVersion "head" 131073) := by
  constructor <;> rfl

/-! ## C9: the dispatcher's tag set -/

/-- C9 counterexample: the tag `hhea` — which the claim counts among the
seven dispatched tags — is not in the `create_table!` list and falls
through to `InvalidTag`. -/
theorem dispatch_hhea_invalid_tag :
    parseTable [] hheaTagB [] = PRes.fail (.invalidTag hheaTagB) := rfl

/-- C9 amended: the dispatcher maps exactly the five registered tags
`glyf`, `maxp`, `loca`, `head`, `name` to their decoders — wrapping each
result in the matching `Table` variant and propagating decoder errors —
and returns `InvalidTag` for every tag outside these five, including
`hhea` and `hmtx` (whose decoder files exist but are never registered or
even declared as modules). -/
theorem dispatch_five_tags (prev : List Table) (s tag : List Nat) :
    parseTable prev glyfTagB s
      = (glyfParse prev s).bind (fun r => pure (Table.glyf r.1, r.2)) ∧
    parseTable prev maxpTagB s
      = (maxpParse prev s).bind (fun r => pure (Table.maxp r.1, r.2)) ∧
    parseTable prev locaTagB s
      = (locaParse prev s).bind (fun r => pure (Table.loca r.1, r.2)) ∧
    parseTable prev headTagB s
      = (headParse prev s).bind (fun r => pure (Table.head r.1, r.2)) ∧
    parseTable prev nameTagB s
      = (nameParse prev s).bind (fun r => pure (Table.name r.1, r.2)) ∧
    (tag ≠ glyfTagB → tag ≠ maxpTagB → tag ≠ locaTagB → tag ≠ headTagB →
      tag ≠ nameTagB → parseTable prev tag s = PRes.fail (.invalidTag tag)) := by
  refine ⟨rfl, rfl, rfl, rfl, rfl, fun h1 h2 h3 h4 h5 => ?_⟩
  unfold parseTable
  rw [if_neg h1, if_neg h2, if_neg h3, if_neg h4, if_neg h5]

/-- Witness for C9 at the concrete unregistered tag `hmtx`. -/
theorem dispatch_five_tags_witness :
    parseTable [] hmtxTagB [] = PRes.fail (.invalidTag hmtxTagB) :=
  (dispatch_five_tags [] [] hmtxTagB).2.2.2.2.2
    (by decide) (by decide) (by decide) (by decide) (by decide)

/-! ## C8: name record platform/encoding acceptance -/

/-- C8 counterexample: platform 0 / encoding 4, which the claim lists as
accepted, hits the `"Unrecognised record!"` panic arm — `(0, 3..4, _)`
is an exclusive range pattern matching only encoding 3, which decodes
fine on the same bytes. -/
theorem name_record_0_4_panics :
    recordFromBytes 0 4 0 .full [0, 84] = none ∧
    recordFromBytes 0 3 0 .full [0, 84] = some ⟨.full, [84]⟩ := by
  constructor <;> rfl

theorem beU16s_lt : ∀ (bs : List Nat), ∀ x ∈ beU16s bs, x < 65536
  | [], x, hx => by simp [beU16s] at hx
  | [a], x, hx => by simp [beU16s] at hx
  | a :: b :: r, x, hx => by
    rw [beU16s] at hx
    rcases List.mem_cons.mp hx with rfl | hx'
    · omega
    · exact beU16s_lt r x hx'

set_option maxRecDepth 4000 in
/-- Every value produced by the UTF-16 decoder is a Unicode scalar value:
no surrogate survives (each unpaired one was replaced) and nothing
exceeds `0x10FFFF`. -/
theorem decodeUtf16_wellformed : ∀ (us : List Nat), (∀ u ∈ us, u < 65536) →
    ∀ x ∈ decodeUtf16 us, (x < 55296 ∨ 57343 < x) ∧ x ≤ 1114111
  | [], _, x, hx => by simp [decodeUtf16] at hx
  | [u], h, x, hx => by
    have hu : u < 65536 := h u (by simp)
    rw [decodeUtf16] at hx
    split at hx <;> simp at hx <;> omega
  | u :: v :: rest, h, x, hx => by
    have hu : u < 65536 := h u (by simp)
    have hv : v < 65536 := h v (by simp)
    have hvr : ∀ w ∈ v :: rest, w < 65536 := fun w hw => h w (List.mem_cons_of_mem u hw)
    have hr : ∀ w ∈ rest, w < 65536 := fun w hw => hvr w (List.mem_cons_of_mem v hw)
    rw [decodeUtf16] at hx
    split at hx
    · rcases List.mem_cons.mp hx with heq | hx'
      · omega
      · exact decodeUtf16_wellformed (v :: rest) hvr x hx'
    · split at hx
      · split at hx
        · rcases List.mem_cons.mp hx with heq | hx'
          · omega
          · exact decodeUtf16_wellformed rest hr x hx'
        · rcases List.mem_cons.mp hx with heq | hx'
          · omega
          · exact decodeUtf16_wellformed (v :: rest) hvr x hx'
      · rcases List.mem_cons.mp hx with heq | hx'
        · omega
        · exact decodeUtf16_wellformed (v :: rest) hvr x hx'
termination_by us _ _ _ => us.length

/-- C8 amended: string decoding accepts exactly the platform/encoding
pairs (0,3), (3,1) and (3,10) — decoding even-length byte slices as
big-endian UTF-16 into scalar values with every unpaired surrogate
replaced (no surrogate appears in the output) — and panics
(`"Unrecognised record!"`) for every other combination, (0,4) included. -/
theorem name_record_decoding (p e l : Nat) (nm : RecordType) (bytes : List Nat) :
    (((p = 0 ∧ e = 3) ∨ (p = 3 ∧ (e = 1 ∨ e = 10))) → bytes.length % 2 = 0 →
      recordFromBytes p e l nm bytes = some ⟨nm, decodeUtf16 (beU16s bytes)⟩ ∧
      ∀ x ∈ decodeUtf16 (beU16s bytes), (x < 55296 ∨ 57343 < x) ∧ x ≤ 1114111) ∧
    (¬ ((p = 0 ∧ e = 3) ∨ (p = 3 ∧ (e = 1 ∨ e = 10))) →
      recordFromBytes p e l nm bytes = none) := by
  constructor
  · intro hacc heven
    constructor
    · unfold recordFromBytes
      rw [if_pos (by rcases hacc with ⟨rfl, rfl⟩ | ⟨rfl, rfl | rfl⟩ <;> simp)]
      unfold fromUtf16
      rw [if_pos heven]
      rfl
    · exact decodeUtf16_wellformed (beU16s bytes) (beU16s_lt bytes)
  · intro hrej
    unfold recordFromBytes
    rw [if_neg (by omega)]

/-- Witness for C8 at platform 3 / encoding 1 with UTF-16BE "Test". -/
theorem name_record_decoding_witness :
    recordFromBytes 3 1 0 .full [0, 84, 0, 101, 0, 115, 0, 116]
      = some ⟨.full, [84, 101, 115, 116]⟩ := by
  have h := (name_record_decoding 3 1 0 RecordType.full
    [0, 84, 0, 101, 0, 115, 0, 116]).1 (Or.inr ⟨rfl, Or.inl rfl⟩) (by decide)
  exact h.1.trans (by rfl)

/-! ## C1: glyf coordinates are raw deltas

Specification-side formulation of the per-point delta rule (the claim's
sources at `read_coords!`): how many bytes a flag's delta occupies and
what value the rule assigns it from its byte window. -/

def deltaWidth (shortDiv signDiv f : Nat) : Nat :=
  if f / shortDiv % 2 = 1 then 1 else if f / signDiv % 2 = 1 then 0 else 2

def deltaValue (shortDiv signDiv f : Nat) (window : List Nat) : Int :=
  if f / shortDiv % 2 = 1 then
    (if f / signDiv % 2 = 1 then ((window.headD 0 % 256 : Nat) : Int)
     else -((window.headD 0 % 256 : Nat) : Int))
  else if f / signDiv % 2 = 1 then 0
  else toI16 ((window.headD 0 % 256) * 256 + window.getD 1 0 % 256)

def deltaSpecList (shortDiv signDiv : Nat) : List Nat → List Nat → List Int
  | [], _ => []
  | f :: fs, bytes =>
    deltaValue shortDiv signDiv f bytes ::
      deltaSpecList shortDiv signDiv fs (bytes.drop (deltaWidth shortDiv signDiv f))

def deltaWidthSum (shortDiv signDiv : Nat) (flags : List Nat) : Nat :=
  (flags.map (deltaWidth shortDiv signDiv)).sum

theorem beNum_take_one {s : List Nat} (h : 1 ≤ s.length) :
    beNum (s.take 1) = s.headD 0 % 256 := by
  cases s with
  | nil => simp at h
  | cons a t => simp [beNum]

theorem beNum_take_two {s : List Nat} (h : 2 ≤ s.length) :
    beNum (s.take 2) = (s.headD 0 % 256) * 256 + s.getD 1 0 % 256 := by
  cases s with
  | nil => simp at h
  | cons a t =>
    cases t with
    | nil => simp at h
    | cons b r => simp [beNum]

/-- C1 amended: each coordinate the glyf decoder stores is the raw
per-point delta given by the flag rule — short+sign ⇒ `+byte`,
short+no-sign ⇒ `-byte`, long ⇒ signed 16-bit, skip ⇒ 0 — read from
that point's byte window; no accumulation into running sums takes place
(the renderer performs the summation when it walks the points). -/
theorem readCoords_deltas (sd sg : Nat) :
    ∀ (flags s : List Nat) (xs : List Int) (s' : List Nat),
    readCoords sd sg flags s = .ok (xs, s') →
    xs = deltaSpecList sd sg flags s ∧ s' = s.drop (deltaWidthSum sd sg flags)
  | [], s, xs, s', h => by
    simp only [readCoords, Except.ok.injEq, Prod.mk.injEq] at h
    obtain ⟨rfl, rfl⟩ := h
    simp [deltaSpecList, deltaWidthSum]
  | f :: fs, s, xs, s', h => by
    rw [readCoords] at h
    by_cases hp1 : f / sd % 2 = 1 <;> by_cases hp2 : f / sg % 2 = 1
    · -- short, positive
      rw [if_pos hp1, if_pos hp2] at h
      rcases hr : rdInt 1 s with e | ⟨v, s1⟩ <;> rw [hr] at h
      · exact absurd h (by simp)
      · have hlen : 1 ≤ s.length ∧ v = beNum (s.take 1) ∧ s1 = s.drop 1 := by
          unfold rdInt at hr
          split at hr
          · simp only [Except.ok.injEq, Prod.mk.injEq] at hr
            exact ⟨by omega, hr.1.symm, hr.2.symm⟩
          · exact absurd hr (by simp)
        obtain ⟨hl, rfl, rfl⟩ := hlen
        dsimp only at h
        rcases hrec : readCoords sd sg fs (s.drop 1) with e | ⟨rest, s2⟩ <;>
          rw [hrec] at h
        · exact absurd h (by simp)
        · simp only [Except.ok.injEq, Prod.mk.injEq] at h
          obtain ⟨rfl, rfl⟩ := h
          obtain ⟨ih1, ih2⟩ := readCoords_deltas sd sg fs (s.drop 1) rest s2 hrec
          constructor
          · rw [deltaSpecList, ih1, deltaWidth, if_pos hp1,
              deltaValue, if_pos hp1, if_pos hp2, beNum_take_one hl]
          · rw [ih2, List.drop_drop, deltaWidthSum, deltaWidthSum, List.map_cons,
              List.sum_cons, deltaWidth, if_pos hp1, Nat.add_comm]
    · -- short, negative
      rw [if_pos hp1, if_neg hp2] at h
      rcases hr : rdInt 1 s with e | ⟨v, s1⟩ <;> rw [hr] at h
      · exact absurd h (by simp)
      · have hlen : 1 ≤ s.length ∧ v = beNum (s.take 1) ∧ s1 = s.drop 1 := by
          unfold rdInt at hr
          split at hr
          · simp only [Except.ok.injEq, Prod.mk.injEq] at hr
            exact ⟨by omega, hr.1.symm, hr.2.symm⟩
          · exact absurd hr (by simp)
        obtain ⟨hl, rfl, rfl⟩ := hlen
        dsimp only at h
        rcases hrec : readCoords sd sg fs (s.drop 1) with e | ⟨rest, s2⟩ <;>
          rw [hrec] at h
        · exact absurd h (by simp)
        · simp only [Except.ok.injEq, Prod.mk.injEq] at h
          obtain ⟨rfl, rfl⟩ := h
          obtain ⟨ih1, ih2⟩ := readCoords_deltas sd sg fs (s.drop 1) rest s2 hrec
          constructor
          · rw [deltaSpecList, ih1, deltaWidth, if_pos hp1,
              deltaValue, if_pos hp1, if_neg hp2, beNum_take_one hl]
          · rw [ih2, List.drop_drop, deltaWidthSum, deltaWidthSum, List.map_cons,
              List.sum_cons, deltaWidth, if_pos hp1, Nat.add_comm]
    · -- skip: delta 0, no byte consumed
      rw [if_neg hp1, if_pos hp2] at h
      dsimp only at h
      rcases hrec : readCoords sd sg fs s with e | ⟨rest, s2⟩ <;> rw [hrec] at h
      · exact absurd h (by simp)
      · simp only [Except.ok.injEq, Prod.mk.injEq] at h
        obtain ⟨rfl, rfl⟩ := h
        obtain ⟨ih1, ih2⟩ := readCoords_deltas sd sg fs s rest s2 hrec
        constructor
        · rw [deltaSpecList, ih1, deltaWidth, if_neg hp1, if_pos hp2,
            deltaValue, if_neg hp1, if_pos hp2, List.drop_zero]
        · rw [ih2, deltaWidthSum, deltaWidthSum, List.map_cons, List.sum_cons,
            deltaWidth, if_neg hp1, if_pos hp2, Nat.zero_add]
    · -- long: signed 16-bit
      rw [if_neg hp1, if_neg hp2] at h
      rcases hr : rdInt 2 s with e | ⟨v, s1⟩ <;> rw [hr] at h
      · exact absurd h (by simp)
      · have hlen : 2 ≤ s.length ∧ v = beNum (s.take 2) ∧ s1 = s.drop 2 := by
          unfold rdInt at hr
          split at hr
          · simp only [Except.ok.injEq, Prod.mk.injEq] at hr
            exact ⟨by omega, hr.1.symm, hr.2.symm⟩
          · exact absurd hr (by simp)
        obtain ⟨hl, rfl, rfl⟩ := hlen
        dsimp only at h
        rcases hrec : readCoords sd sg fs (s.drop 2) with e | ⟨rest, s2⟩ <;>
          rw [hrec] at h
        · exact absurd h (by simp)
        · simp only [Except.ok.injEq, Prod.mk.injEq] at h
          obtain ⟨rfl, rfl⟩ := h
          obtain ⟨ih1, ih2⟩ := readCoords_deltas sd sg fs (s.drop 2) rest s2 hrec
          constructor
          · rw [deltaSpecList, ih1, deltaWidth, if_neg hp1, if_neg hp2,
              deltaValue, if_neg hp1, if_neg hp2, beNum_take_two hl]
          · rw [ih2, List.drop_drop, deltaWidthSum, deltaWidthSum, List.map_cons,
              List.sum_cons, deltaWidth, if_neg hp1, if_neg hp2, Nat.add_comm]

/-- Witness for C1's amended theorem at one short+positive x delta. -/
theorem readCoords_deltas_witness :
    ([(5 : Int)] = deltaSpecList 2 16 [54] [5] ∧
     ([] : List Nat) = [5].drop (deltaWidthSum 2 16 [54])) :=
  readCoords_deltas 2 16 [54] [5] [5] [] (by rfl)

/-- C1 counterexample: a two-point simple glyph whose x deltas are
`[1, 1]` and y deltas `[2, 2]` decodes to points `[(1,2), (1,2)]` — the
raw deltas — whereas running sums would give `[(1,2), (2,4)]`.  Stream:
numContours=1, zero bbox, endPts=[1], no instructions, two flag bytes 54
(X/Y short and positive, on-curve clear), x bytes [1,1], y bytes [2,2]. -/
theorem glyf_points_not_cumulative :
    glyfParse [.loca [0, 20]]
      [0, 1, 0, 0, 0, 0, 0, 0, 0, 0, 0, 1, 0, 0, 54, 54, 1, 1, 2, 2]
      = PRes.ok ([⟨1, 0, 0, 0, 0, [1], [(1, 2, false), (1, 2, false)]⟩], []) ∧
    [((1 : Int), (2 : Int), false), (1, 2, false)]
      ≠ [((1 : Int), (2 : Int), false), (2, 4, false)] := by
  constructor
  · rfl
  · decide

/-! ## SFNT parser (src/src/font.rs)

`verify_header` reads the 12-byte offset table.  `num_tables.ilog2()`
panics when `num_tables` is zero; the `u16` products and differences wrap
(release semantics). -/

def u16sub (a b : Nat) : Nat := (a % 65536 + 65536 - b % 65536) % 65536

def verifyHeader (s : List Nat) : PRes (Nat × List Nat) :=
  -- `input.read(&mut version)?` fills the zero-initialised 4-byte buffer
  -- with whatever is available; no length check follows.
  if (rdBytes 4 s).1 ++ List.replicate (4 - (rdBytes 4 s).1.length) 0 ≠ [0, 1, 0, 0] then
    PRes.fail (.invalidSfntVersion
      ((rdBytes 4 s).1 ++ List.replicate (4 - (rdBytes 4 s).1.length) 0))
  else
    match rdInt 2 (rdBytes 4 s).2 with
    | .error e => .fail e
    | .ok (numTables, s1) =>
      match rdInt 2 s1 with
      | .error e => .fail e
      | .ok (searchRange, s2) =>
        if numTables = 0 then .panic   -- `num_tables.ilog2()` on zero
        else if searchRange ≠ 2 ^ Nat.log2 numTables * 16 % 65536 then
          .fail (.parsing "SearchRange" (2 ^ Nat.log2 numTables * 16 % 65536) searchRange)
        else
          match rdInt 2 s2 with
          | .error e => .fail e
          | .ok (entrySelector, s3) =>
            if entrySelector ≠ Nat.log2 numTables then
              .fail (.parsing "EntrySelector" (Nat.log2 numTables) entrySelector)
            else
              match rdInt 2 s3 with
              | .error e => .fail e
              | .ok (rangeShift, s4) =>
                if rangeShift ≠ u16sub (numTables * 16) searchRange then
                  .fail (.parsing "RangeShift" (u16sub (numTables * 16) searchRange) rangeShift)
                else .ok (numTables, s4)

structure TableRec where
  tag  : List Nat
  csum : Nat
  off  : Nat
  len  : Nat
deriving DecidableEq, Repr

/-- The directory loop of `open_font`: `numTables` records of
(tag: 4 raw bytes with an explicit short-read check, checksum, offset,
length as big-endian `u32`s). -/
def readRecords : Nat → List Nat → Except Err (List TableRec × List Nat)
  | 0, s => .ok ([], s)
  | n + 1, s =>
    let p := rdBytes 4 s
    if p.1.length ≠ 4 then .error (.unexpectedEop "TableRecord" (4 - p.1.length))
    else
      match rdInt 4 p.2 with
      | .error e => .error e
      | .ok (csum, s2) =>
        match rdInt 4 s2 with
        | .error e => .error e
        | .ok (off, s3) =>
          match rdInt 4 s3 with
          | .error e => .error e
          | .ok (len, s4) =>
            match readRecords n s4 with
            | .error e => .error e
            | .ok (recs, rest) => .ok (⟨p.1, csum, off, len⟩ :: recs, rest)

/-- `tables.sort_by(|a, b| a.offset.cmp(b.offset))`: Rust's sort is
stable, and every stable sort with the same comparator produces the same
output, so stable insertion sort is a faithful model. -/
def insertRec (r : TableRec) : List TableRec → List TableRec
  | [] => [r]
  | x :: xs => if r.off ≤ x.off then r :: x :: xs else x :: insertRec r xs

def sortRecs : List TableRec → List TableRec
  | [] => []
  | r :: rs => insertRec r (sortRecs rs)

/-- A per-table `ChecksumReader::finish` after the reader saw `consumed`
bytes, with `rest` still unread in the wrapped source: yields the
checksum and the source remainder (finish may read up to 3 padding
bytes from it). -/
def tagFinish (consumed rest : List Nat) : Nat × List Nat :=
  crFinish (crConsume consumed ⟨rest, 0, 0, 0⟩)

/-- The running state of `open_font`'s table loop: the unread remainder
of the input, the absolute read position, the tables decoded so far and
the retained `head` checksumAdjustment. -/
structure LoopSt where
  s      : List Nat
  pos    : Nat
  parsed : List Table
  adj    : Nat
deriving DecidableEq, Repr

/-- One iteration of `open_font`'s table loop: skip forward to the
record's offset when the position disagrees (logged, not fatal), wrap
the stream in a fresh per-table ChecksumReader, dispatch the decoder,
pad to the declared length, `finish()` the per-table checksum, handle
the `head` special case, drop `InvalidTag` tables, and compare the
computed and declared checksums — a comparison that only logs, which is
why both branches of the final `if` are identical. -/
def openFontStep (st : LoopSt) (r : TableRec) : PRes LoopSt :=
  let st1 :=
    if r.off ≠ st.pos then
      let k := skipN (u64sub r.off st.pos) st.s
      { st with s := k.2, pos := st.pos + k.1 }
    else st
  match parseTable st1.parsed r.tag st1.s with
  | .panic => .panic
  | .fail e =>
    match e with
    | .invalidTag _ =>
      if r.tag = headTagB then .fail e   -- head branch: `parsed?` rethrows
      else
        -- unrecognized tag: nothing consumed; still skip the declared
        -- length and finish the per-table checksum, then drop the table
        let k2 := skipN (u64sub r.len 0) st1.s
        let fin := tagFinish (st1.s.take k2.1) k2.2
        let extra := k2.2.length - fin.2.length
        let st' : LoopSt :=
          { s := fin.2, pos := st1.pos + k2.1 + extra,
            parsed := st1.parsed, adj := st.adj }
        if fin.1 ≠ r.csum then pure st' else pure st'
    | _ => .fail e
  | .ok (tbl, sAfter) =>
    let consumed := st1.s.length - sAfter.length
    let k2 := skipN (u64sub r.len consumed) sAfter
    let consumed2 := consumed + k2.1
    let fin := tagFinish (st1.s.take consumed2) k2.2
    let extra := k2.2.length - fin.2.length
    if r.tag = headTagB then
      match tbl with
      | .head h =>
        let cact := u32sub fin.1 h.checksumAdjustment
        let st' : LoopSt :=
          { s := fin.2, pos := st1.pos + consumed2 + extra,
            parsed := st1.parsed ++ [tbl], adj := h.checksumAdjustment }
        if cact ≠ r.csum then pure st' else pure st'
      | _ => .panic   -- `panic!("head not parsed as head")`
    else
      let st' : LoopSt :=
        { s := fin.2, pos := st1.pos + consumed2 + extra,
          parsed := st1.parsed ++ [tbl], adj := st.adj }
      if fin.1 ≠ r.csum then pure st' else pure st'

def openFontLoop : List TableRec → LoopSt → PRes LoopSt
  | [], st => pure st
  | r :: rs, st =>
    match openFontStep st r with
    | .panic => .panic
    | .fail e => .fail e
    | .ok st' => openFontLoop rs st'

/-- `open_font` up to (but excluding) the final whole-file
ChecksumAdjustment verification: header, directory, offset sort, and the
table loop. -/
def openFontPhase1 (input : List Nat) : PRes LoopSt :=
  match verifyHeader input with
  | .panic => .panic
  | .fail e => .fail e
  | .ok (numTables, s1) =>
    match readRecords numTables s1 with
    | .error e => .fail e
    | .ok (recs, s2) =>
      openFontLoop (sortRecs recs)
        ⟨s2, input.length - s2.length, [], 0⟩

/-- `open_font` (src/src/font.rs): phase 1, then `reader.finish()` on the
outer whole-file ChecksumReader, subtraction of the head adjustment, and
the `0xB1B0AFBA` ChecksumAdjustment equation. -/
def openFont (input : List Nat) : PRes (List Table) :=
  match openFontPhase1 input with
  | .panic => .panic
  | .fail e => .fail e
  | .ok st =>
    let fin := tagFinish (input.take st.pos) st.s
    let headAdj :=
      match findHead st.parsed with
      | some h => h.checksumAdjustment
      | none => 0
    let checksum := u32sub 0xB1B0AFBA (u32sub fin.1 headAdj)
    if checksum ≠ st.adj then .fail (.parsing "ChecksumAdjustment" st.adj checksum)
    else .ok st.parsed

/-- The `numTables` field of an SFNT header. -/
def numTablesOf (input : List Nat) : Nat := beNum ((input.drop 4).take 2)

/-- Overwrite the 4 bytes at position `p` (identity when out of range). -/
def writeBytesAt (l : List Nat) (p : Nat) (bs : List Nat) : List Nat :=
  if p + bs.length ≤ l.length then l.take p ++ bs ++ l.drop (p + bs.length) else l

/-- Big-endian bytes of a 32-bit value. -/
def be32 (c : Nat) : List Nat :=
  [c / 16777216 % 256, c / 65536 % 256, c / 256 % 256, c % 256]

/-! ### C10: numTables = 0 panics -/

/-- C10 (confirmed). `verify_header` panics exactly when the sfnt version
check passes, the stream carries the 8 header bytes read up to and
including `searchRange`, and the `numTables` field is zero — the
`ilog2()` of zero in the searchRange validation.  Under `numTables ≥ 1`
the function is total (a value or a `ParseError`, never a panic), so a
formal embedding must carry `numTables ≥ 1` as a hypothesis for
totality; the panic propagates through `open_font`, which runs
`verify_header` first. -/
theorem verify_header_numtables_zero_panics (s : List Nat) :
    (verifyHeader s = PRes.panic ↔
      (8 ≤ s.length ∧ (rdBytes 4 s).1 = [0, 1, 0, 0] ∧ numTablesOf s = 0)) ∧
    (8 ≤ s.length → (rdBytes 4 s).1 = [0, 1, 0, 0] → numTablesOf s = 0 →
      openFontPhase1 s = PRes.panic) := by
  have hmain : verifyHeader s = PRes.panic ↔
      (8 ≤ s.length ∧ (rdBytes 4 s).1 = [0, 1, 0, 0] ∧ numTablesOf s = 0) := by
    by_cases h8 : 8 ≤ s.length
    · have hlen4 : (rdBytes 4 s).1.length = 4 := by
        simp only [rdBytes, List.length_map, List.length_take]
        omega
      have h1 : rdInt 2 (rdBytes 4 s).2 = .ok (numTablesOf s, s.drop 6) := by
        unfold rdInt
        rw [if_pos (by simp [rdBytes]; omega)]
        simp [rdBytes, numTablesOf, List.drop_drop]
      have h2 : rdInt 2 (s.drop 6) = .ok (beNum ((s.drop 6).take 2), s.drop 8) := by
        unfold rdInt
        rw [if_pos (by simp; omega)]
        simp [List.drop_drop]
      unfold verifyHeader
      rw [hlen4]
      simp only [Nat.sub_self, List.replicate, List.append_nil]
      by_cases hv : (rdBytes 4 s).1 = [0, 1, 0, 0]
      · rw [if_neg (by simp [hv]), h1]
        dsimp only
        by_cases hz : numTablesOf s = 0
        · rw [h2]
          dsimp only
          simp only [hz, if_pos rfl]
          simp [h8, hv, hz]
        · rw [h2]
          dsimp only
          simp only [if_neg hz]
          refine iff_of_false (fun hc => ?_) (by simp [hz])
          split at hc
          · exact PRes.noConfusion hc
          · split at hc
            · exact PRes.noConfusion hc
            · split at hc
              · exact PRes.noConfusion hc
              · split at hc
                · exact PRes.noConfusion hc
                · split at hc
                  · exact PRes.noConfusion hc
                  · exact PRes.noConfusion hc
      · exact iff_of_false (by rw [if_pos (by simp [hv])]; simp) (by simp [hv])
    · refine iff_of_false (fun hc => ?_) (by simp [h8])
      unfold verifyHeader at hc
      split at hc
      · exact PRes.noConfusion hc
      · by_cases h6 : 6 ≤ s.length
        · have h1 : rdInt 2 (rdBytes 4 s).2
              = .ok (numTablesOf s, s.drop 6) := by
            unfold rdInt
            rw [if_pos (by simp [rdBytes]; omega)]
            simp [rdBytes, numTablesOf, List.drop_drop]
          rw [h1] at hc
          dsimp only at hc
          have h2 : rdInt 2 (s.drop 6) = .error (.ioUnexpectedEnd (2 - (s.length - 6))) := by
            unfold rdInt
            rw [if_neg (by simp; omega)]
            simp
          rw [h2] at hc
          exact PRes.noConfusion hc
        · have h1 : rdInt 2 (rdBytes 4 s).2
              = .error (.ioUnexpectedEnd (2 - (s.length - 4))) := by
            unfold rdInt
            rw [if_neg (by simp [rdBytes]; omega)]
            simp [rdBytes]
          rw [h1] at hc
          dsimp only at hc
          exact PRes.noConfusion hc
  refine ⟨hmain, fun h8 hv hz => ?_⟩
  unfold openFontPhase1
  rw [hmain.mpr ⟨h8, hv, hz⟩]

/-- Witness for C10 at the concrete 8-byte header with numTables = 0. -/
theorem verify_header_numtables_zero_panics_witness :
    verifyHeader [0, 1, 0, 0, 0, 0, 0, 0] = PRes.panic ∧
    openFontPhase1 [0, 1, 0, 0, 0, 0, 0, 0] = PRes.panic :=
  ⟨(verify_header_numtables_zero_panics [0, 1, 0, 0, 0, 0, 0, 0]).1.mpr
      ⟨by decide, by rfl, by rfl⟩,
   (verify_header_numtables_zero_panics [0, 1, 0, 0, 0, 0, 0, 0]).2
      (by decide) (by rfl) (by rfl)⟩

/-! ### C6: a table's declared checksum never affects the parse

Two directory records are `relRec`-related when they agree on tag,
offset and length — the declared checksum is left free. -/

def relRec (r r' : TableRec) : Prop :=
  r.tag = r'.tag ∧ r.off = r'.off ∧ r.len = r'.len

theorem relRec_refl (r : TableRec) : relRec r r := ⟨rfl, rfl, rfl⟩

/-- The loop body reads a record's declared checksum only in the
log-only comparison whose branches coincide, so the step result is
independent of it. -/
theorem openFontStep_csum_irrelevant (st : LoopSt) (r r' : TableRec)
    (h : relRec r r') : openFontStep st r = openFontStep st r' := by
  obtain ⟨t, c, o, l⟩ := r
  obtain ⟨t', c', o', l'⟩ := r'
  obtain ⟨ht, ho, hl⟩ := h
  simp only at ht ho hl
  subst ht; subst ho; subst hl
  simp only [openFontStep, ite_self]

theorem openFontLoop_rel {rs rs' : List TableRec}
    (h : List.Forall₂ relRec rs rs') :
    ∀ st, openFontLoop rs st = openFontLoop rs' st := by
  induction h with
  | nil => intro st; rfl
  | @cons a b as bs hrel htail ih =>
    intro st
    show openFontLoop (a :: as) st = openFontLoop (b :: bs) st
    unfold openFontLoop
    rw [openFontStep_csum_irrelevant st a b hrel]
    cases openFontStep st b with
    | panic => rfl
    | fail e => rfl
    | ok st' => exact ih st'

theorem insertRec_rel {a b : TableRec} (hab : relRec a b) :
    ∀ {xs ys : List TableRec}, List.Forall₂ relRec xs ys →
    List.Forall₂ relRec (insertRec a xs) (insertRec b ys) := by
  intro xs ys h
  induction h with
  | nil => exact .cons hab .nil
  | @cons x y xs' ys' hxy htail ih =>
    unfold insertRec
    by_cases hc : a.off ≤ x.off
    · rw [if_pos hc, if_pos (by rw [← hab.2.1, ← hxy.2.1]; exact hc)]
      exact .cons hab (.cons hxy htail)
    · rw [if_neg hc, if_neg (by rw [← hab.2.1, ← hxy.2.1]; exact hc)]
      exact .cons hxy ih

theorem sortRecs_rel : ∀ {l1 l2 : List TableRec}, List.Forall₂ relRec l1 l2 →
    List.Forall₂ relRec (sortRecs l1) (sortRecs l2) := by
  intro l1 l2 h
  induction h with
  | nil => exact .nil
  | @cons a b as bs hab htail ih =>
    show List.Forall₂ relRec (insertRec a (sortRecs as)) (insertRec b (sortRecs bs))
    exact insertRec_rel hab ih

theorem rdInt_exact {n : Nat} {A : List Nat} (h : n ≤ A.length) :
    rdInt n A = .ok (beNum (A.take n), A.drop n) := by
  unfold rdInt
  rw [if_pos h]

theorem rdInt_append {n : Nat} (A B : List Nat) (h : n ≤ A.length) :
    rdInt n (A ++ B) = .ok (beNum (A.take n), A.drop n ++ B) := by
  unfold rdInt
  rw [if_pos (by simp; omega), List.take_append_eq_append_take,
    List.drop_append_eq_append_drop]
  have h1 : n - A.length = 0 := by omega
  rw [h1]
  simp

theorem rdBytes_append {n : Nat} (A B : List Nat) (h : n ≤ A.length) :
    rdBytes n (A ++ B) = ((A.take n).map (· % 256), A.drop n ++ B) := by
  unfold rdBytes
  rw [List.take_append_eq_append_take, List.drop_append_eq_append_drop]
  have h1 : n - A.length = 0 := by omega
  rw [h1]
  simp

/-- Reading one 16-byte directory record off the front of a stream. -/
theorem readRecord_prefix (P X : List Nat) (hP : P.length = 16) (n : Nat) :
    readRecords (n + 1) (P ++ X) =
      match readRecords n X with
      | .error e => .error e
      | .ok (recs, rest) =>
        .ok (⟨(P.take 4).map (· % 256), beNum ((P.drop 4).take 4),
              beNum ((P.drop 8).take 4), beNum ((P.drop 12).take 4)⟩ :: recs, rest) := by
  have d44 : (P.drop 4).drop 4 = P.drop 8 := by rw [List.drop_drop]
  have d84 : (P.drop 8).drop 4 = P.drop 12 := by rw [List.drop_drop]
  have d124 : (P.drop 12).drop 4 = [] := by
    rw [List.drop_drop]
    exact List.drop_eq_nil_of_le (by omega)
  have l4 : (4 : Nat) ≤ P.length := by omega
  have l44 : (4 : Nat) ≤ (P.drop 4).length := by simp; omega
  have l84 : (4 : Nat) ≤ (P.drop 8).length := by simp; omega
  have l124 : (4 : Nat) ≤ (P.drop 12).length := by simp; omega
  unfold readRecords
  rw [rdBytes_append _ _ l4]
  dsimp only
  rw [if_neg (by simp; omega)]
  rw [rdInt_append _ _ l44, d44]
  dsimp only
  rw [rdInt_append _ _ l84, d84]
  dsimp only
  rw [rdInt_append _ _ l124, d124]
  dsimp only
  rw [List.nil_append]
  rw [show (match n, X with
      | 0, s => Except.ok ([], s)
      | Nat.succ n, s =>
        if (rdBytes 4 s).1.length ≠ 4 then
          Except.error (Err.unexpectedEop "TableRecord" (4 - (rdBytes 4 s).1.length))
        else
          match rdInt 4 (rdBytes 4 s).2 with
          | Except.error e => Except.error e
          | Except.ok (csum, s2) =>
            match rdInt 4 s2 with
            | Except.error e => Except.error e
            | Except.ok (off, s3) =>
              match rdInt 4 s3 with
              | Except.error e => Except.error e
              | Except.ok (len, s4) =>
                match readRecords n s4 with
                | Except.error e => Except.error e
                | Except.ok (recs, rest) =>
                  Except.ok (⟨(rdBytes 4 s).1, csum, off, len⟩ :: recs, rest)) =
      readRecords n X from (readRecords.eq_def n X).symm]

theorem readRecords_ok_of_length : ∀ (n : Nat) (s : List Nat), 16 * n ≤ s.length →
    ∃ recs, readRecords n s = .ok (recs, s.drop (16 * n))
  | 0, s, _ => ⟨[], by simp [readRecords]⟩
  | n + 1, s, h => by
    have h16 : 16 ≤ s.length := by omega
    have hlen : (s.take 16).length = 16 := by simp; omega
    obtain ⟨recs, hrecs⟩ := readRecords_ok_of_length n (s.drop 16) (by simp; omega)
    have hstep := readRecord_prefix (s.take 16) (s.drop 16) hlen n
    rw [List.take_append_drop] at hstep
    rw [hrecs] at hstep
    dsimp only at hstep
    have hdd : (s.drop 16).drop (16 * n) = s.drop (16 * (n + 1)) := by
      rw [List.drop_drop]
      congr 1
      omega
    rw [hdd] at hstep
    exact ⟨_, hstep⟩

/-- Changing only the 4 declared-checksum bytes of the first directory
record changes only that record's `csum` field. -/
theorem readRecords_csum_head (m : Nat) (C w w' D : List Nat)
    (hC : C.length = 4) (hw : w.length = 4) (hw' : w'.length = 4)
    (hD : 8 + 16 * m ≤ D.length) :
    ∃ recs recs',
      readRecords (m + 1) (C ++ w ++ D) = .ok (recs, D.drop (8 + 16 * m)) ∧
      readRecords (m + 1) (C ++ w' ++ D) = .ok (recs', D.drop (8 + 16 * m)) ∧
      List.Forall₂ relRec recs recs' := by
  obtain ⟨recs0, hrecs0⟩ := readRecords_ok_of_length m (D.drop 8) (by simp; omega)
  have hdd : (D.drop 8).drop (16 * m) = D.drop (8 + 16 * m) := by
    rw [List.drop_drop]
  rw [hdd] at hrecs0
  have key : ∀ v : List Nat, v.length = 4 →
      readRecords (m + 1) (C ++ v ++ D) =
        .ok (⟨C.map (· % 256), beNum v, beNum ((D.take 8).take 4),
              beNum (((D.take 8).drop 4).take 4)⟩ :: recs0, D.drop (8 + 16 * m)) := by
    intro v hv
    have hP : (C ++ v ++ D.take 8).length = 16 := by
      simp [hC, hv]; omega
    have hsplit : C ++ v ++ D = (C ++ v ++ D.take 8) ++ D.drop 8 := by
      simp only [List.append_assoc, List.take_append_drop]
    have hCv : (C ++ v).length = 8 := by simp [hC, hv]
    have e1 : (C ++ v ++ D.take 8).take 4 = C := by
      rw [List.append_assoc]
      exact List.take_left' hC
    have e2 : (C ++ v ++ D.take 8).drop 4 = v ++ D.take 8 := by
      rw [List.append_assoc]
      exact List.drop_left' hC
    have e3 : (v ++ D.take 8).take 4 = v := List.take_left' hv
    have e4 : (C ++ v ++ D.take 8).drop 8 = D.take 8 := List.drop_left' hCv
    have e5 : (C ++ v ++ D.take 8).drop 12 = (D.take 8).drop 4 := by
      rw [List.drop_append_eq_append_drop,
        List.drop_eq_nil_of_le (show (C ++ v).length ≤ 12 by omega), hCv]
      norm_num
    rw [hsplit, readRecord_prefix _ _ hP m, hrecs0]
    dsimp only
    rw [e1, e2, e3, e4, e5]
  exact ⟨_, _, key w hw, key w' hw',
    .cons ⟨rfl, rfl, rfl⟩ (List.forall₂_same.mpr (fun x _ => relRec_refl x))⟩

/-- Overwriting the declared checksum of directory record `j` (the bytes
at directory-relative positions `16j + 4 .. 16j + 8`) leaves every other
decoded directory field and the stream remainder unchanged. -/
theorem readRecords_csum_window : ∀ (j n : Nat) (s w' : List Nat),
    j < n → 16 * n ≤ s.length → w'.length = 4 →
    ∃ recs recs',
      readRecords n s = .ok (recs, s.drop (16 * n)) ∧
      readRecords n (s.take (16 * j + 4) ++ w' ++ s.drop (16 * j + 8)) =
        .ok (recs', s.drop (16 * n)) ∧
      List.Forall₂ relRec recs recs'
  | j, 0, _, _, hj, _, _ => absurd hj (by omega)
  | 0, m + 1, s, w', _, hn, hw' => by
    have h16 : 16 ≤ s.length := by omega
    obtain ⟨recs, recs', h1, h2, hrel⟩ :=
      readRecords_csum_head m (s.take 4) ((s.drop 4).take 4) w' (s.drop 8)
        (by simp; omega) (by simp; omega) hw' (by simp; omega)
    have h48 : s.take 4 ++ (s.drop 4).take 4 = s.take 8 := by
      rw [← List.take_add]
    have hs : s.take 4 ++ (s.drop 4).take 4 ++ s.drop 8 = s := by
      rw [h48, List.take_append_drop]
    have hrest : (s.drop 8).drop (8 + 16 * m) = s.drop (16 * (m + 1)) := by
      rw [List.drop_drop]; congr 1; omega
    rw [hs, hrest] at h1
    rw [hrest] at h2
    simp only [Nat.mul_zero, Nat.zero_add]
    exact ⟨recs, recs', h1, h2, hrel⟩
  | j + 1, m + 1, s, w', hj, hn, hw' => by
    have h16 : 16 ≤ s.length := by omega
    have hjm : j < m := by omega
    obtain ⟨recs0, recs0', h0, h0', hrel⟩ :=
      readRecords_csum_window j m (s.drop 16) w' hjm (by simp; omega) hw'
    have hP : (s.take 16).length = 16 := by simp; omega
    have hrest : (s.drop 16).drop (16 * m) = s.drop (16 * (m + 1)) := by
      rw [List.drop_drop]; congr 1; omega
    have h1 := readRecord_prefix (s.take 16) (s.drop 16) hP m
    rw [h0] at h1
    dsimp only at h1
    rw [List.take_append_drop, hrest] at h1
    have hsplit : s.take (16 * (j + 1) + 4) ++ w' ++ s.drop (16 * (j + 1) + 8) =
        s.take 16 ++
          ((s.drop 16).take (16 * j + 4) ++ w' ++ (s.drop 16).drop (16 * j + 8)) := by
      have e1 : s.take (16 * (j + 1) + 4) = s.take 16 ++ (s.drop 16).take (16 * j + 4) := by
        rw [show 16 * (j + 1) + 4 = 16 + (16 * j + 4) by omega, List.take_add]
      have e2 : s.drop (16 * (j + 1) + 8) = (s.drop 16).drop (16 * j + 8) := by
        rw [List.drop_drop]; congr 1; omega
      rw [e1, e2]
      simp only [List.append_assoc]
    have h1' := readRecord_prefix (s.take 16)
        ((s.drop 16).take (16 * j + 4) ++ w' ++ (s.drop 16).drop (16 * j + 8)) hP m
    rw [h0'] at h1'
    dsimp only at h1'
    rw [← hsplit, hrest] at h1'
    exact ⟨_, _, h1, h1', .cons ⟨rfl, rfl, rfl⟩ hrel⟩

theorem rdInt_ok_inv {n : Nat} {t : List Nat} {v : Nat} {r : List Nat}
    (h : rdInt n t = .ok (v, r)) :
    n ≤ t.length ∧ v = beNum (t.take n) ∧ r = t.drop n := by
  unfold rdInt at h
  split at h
  · rename_i hc
    injection h with h'
    exact ⟨hc, (congrArg Prod.fst h').symm, (congrArg Prod.snd h').symm⟩
  · exact Except.noConfusion h

theorem rdInt2_drop (t : List Nat) (a b : Nat) (hab : a + 2 = b)
    (h : a + 2 ≤ t.length) :
    rdInt 2 (t.drop a) = .ok (beNum ((t.drop a).take 2), t.drop b) := by
  subst hab
  unfold rdInt
  rw [if_pos (by simp; omega), List.drop_drop]

/-- A successful `verify_header` consumed exactly the 12 header bytes and
returned the stream's `numTables` field. -/
theorem verifyHeader_ok_rest (s : List Nat) (nt : Nat) (rest : List Nat)
    (h : verifyHeader s = .ok (nt, rest)) :
    12 ≤ s.length ∧ nt = numTablesOf s ∧ rest = s.drop 12 := by
  unfold verifyHeader at h
  split at h
  · exact PRes.noConfusion h
  · split at h
    · exact PRes.noConfusion h
    · rename_i numTables s1 heq1
      obtain ⟨hle1, hv1, hr1⟩ := rdInt_ok_inv heq1
      dsimp only [rdBytes] at hle1 hv1 hr1
      rw [List.drop_drop] at hr1
      norm_num at hr1
      subst hr1
      split at h
      · exact PRes.noConfusion h
      · rename_i searchRange s2 heq2
        obtain ⟨hle2, hv2, hr2⟩ := rdInt_ok_inv heq2
        rw [List.drop_drop] at hr2
        norm_num at hr2
        subst hr2
        split at h
        · exact PRes.noConfusion h
        · split at h
          · exact PRes.noConfusion h
          · split at h
            · exact PRes.noConfusion h
            · rename_i entrySelector s3 heq3
              obtain ⟨hle3, hv3, hr3⟩ := rdInt_ok_inv heq3
              rw [List.drop_drop] at hr3
              norm_num at hr3
              subst hr3
              split at h
              · exact PRes.noConfusion h
              · split at h
                · exact PRes.noConfusion h
                · rename_i rangeShift s4 heq4
                  obtain ⟨hle4, hv4, hr4⟩ := rdInt_ok_inv heq4
                  rw [List.drop_drop] at hr4
                  norm_num at hr4
                  subst hr4
                  split at h
                  · exact PRes.noConfusion h
                  · injection h with h'
                    have hfst : numTables = nt := congrArg Prod.fst h'
                    have hsnd : s.drop 12 = rest := congrArg Prod.snd h'
                    refine ⟨?_, ?_, hsnd.symm⟩
                    · simp only [List.length_drop] at hle4
                      omega
                    · rw [← hfst, hv1]
                      rfl

/-- `verify_header` depends on the stream only through its first 12
bytes, except that the returned remainder is the tail of its own
stream. -/
theorem verifyHeader_congr (s s' : List Nat) (h12 : 12 ≤ s.length)
    (h12' : 12 ≤ s'.length) (htake : s'.take 12 = s.take 12) :
    verifyHeader s' =
      match verifyHeader s with
      | .panic => .panic
      | .fail e => .fail e
      | .ok (nt, _) => .ok (nt, s'.drop 12) := by
  have key : ∀ a b : Nat, a + b ≤ 12 → (s'.drop a).take b = (s.drop a).take b := by
    intro a b hab
    have h1 : (s'.take 12).drop a = (s.take 12).drop a := by rw [htake]
    rw [List.drop_take, List.drop_take] at h1
    have h2 : ((s'.drop a).take (12 - a)).take b = ((s.drop a).take (12 - a)).take b := by
      rw [h1]
    rwa [List.take_take, List.take_take,
      Nat.min_eq_left (show b ≤ 12 - a by omega)] at h2
  have c4 : s'.take 4 = s.take 4 := by
    have h0 := key 0 4 (by omega)
    rwa [List.drop_zero, List.drop_zero] at h0
  have hb : (rdBytes 4 s').1 = (rdBytes 4 s).1 := by
    show (s'.take 4).map (· % 256) = (s.take 4).map (· % 256)
    rw [c4]
  have hl4 : (rdBytes 4 s).1.length = 4 := by
    simp only [rdBytes, List.length_map, List.length_take]
    omega
  have hl4' : (rdBytes 4 s').1.length = 4 := by
    simp only [rdBytes, List.length_map, List.length_take]
    omega
  have hb2 : (rdBytes 4 s).2 = s.drop 4 := rfl
  have hb2' : (rdBytes 4 s').2 = s'.drop 4 := rfl
  have w4 := key 4 2 (by omega)
  have w6 := key 6 2 (by omega)
  have w8 := key 8 2 (by omega)
  have w10 := key 10 2 (by omega)
  unfold verifyHeader
  rw [hl4, hl4']
  simp only [Nat.sub_self, List.replicate, List.append_nil]
  rw [hb, hb2, hb2']
  by_cases hv : (rdBytes 4 s).1 = [0, 1, 0, 0]
  · rw [if_neg (fun hne => hne hv), if_neg (fun hne => hne hv)]
    rw [rdInt2_drop s 4 6 rfl (by omega), rdInt2_drop s' 4 6 rfl (by omega)]
    dsimp only
    rw [w4]
    rw [rdInt2_drop s 6 8 rfl (by omega), rdInt2_drop s' 6 8 rfl (by omega)]
    dsimp only
    rw [w6]
    by_cases hz : beNum ((s.drop 4).take 2) = 0
    · rw [if_pos hz, if_pos hz]
    · rw [if_neg hz, if_neg hz]
      by_cases hsr : beNum ((s.drop 6).take 2) =
          2 ^ Nat.log2 (beNum ((s.drop 4).take 2)) * 16 % 65536
      · rw [if_neg (fun hne => hne hsr), if_neg (fun hne => hne hsr)]
        rw [rdInt2_drop s 8 10 rfl (by omega), rdInt2_drop s' 8 10 rfl (by omega)]
        dsimp only
        rw [w8]
        by_cases hes : beNum ((s.drop 8).take 2) = Nat.log2 (beNum ((s.drop 4).take 2))
        · rw [if_neg (fun hne => hne hes), if_neg (fun hne => hne hes)]
          rw [rdInt2_drop s 10 12 rfl (by omega), rdInt2_drop s' 10 12 rfl (by omega)]
          dsimp only
          rw [w10]
          by_cases hrs : beNum ((s.drop 10).take 2) =
              u16sub (beNum ((s.drop 4).take 2) * 16) (beNum ((s.drop 6).take 2))
          · rw [if_neg (fun hne => hne hrs), if_neg (fun hne => hne hrs)]
          · rw [if_pos hrs, if_pos hrs]
        · rw [if_pos hes, if_pos hes]
      · rw [if_pos hsr, if_pos hsr]
  · rw [if_pos hv, if_pos hv]

/-- C6 (confirmed).  Overwriting the declared per-table checksum of any
directory record (the 4 bytes at offset `16 + 16j`) with an arbitrary
value `c` leaves the whole parse — header validation, directory
decoding, offset sort and the entire table loop, i.e. everything except
the final whole-file ChecksumAdjustment equation — unchanged: the
mismatch between a declared and a computed per-table checksum is only
logged (`if fin ≠ r.csum` has identical branches), never an error, and
the table is decoded and kept exactly as with a matching checksum.  The
claim restricts itself to non-`head` tables, hence the (unneeded) tag
hypothesis; the `head` comparison is log-only as well. -/
theorem open_font_checksum_nonfatal (input : List Nat) (j c : Nat)
    (hdir : 12 + 16 * numTablesOf input ≤ input.length)
    (hj : j < numTablesOf input)
    (_htag : ((input.drop (12 + 16 * j)).take 4).map (· % 256) ≠ headTagB) :
    openFontPhase1 (writeBytesAt input (16 + 16 * j) (be32 c)) = openFontPhase1 input := by
  have hp4 : 16 + 16 * j + 4 ≤ input.length := by omega
  have hE : writeBytesAt input (16 + 16 * j) (be32 c) =
      input.take (16 + 16 * j) ++ be32 c ++ input.drop (16 + 16 * j + 4) := by
    unfold writeBytesAt
    rw [show (be32 c).length = 4 from rfl, if_pos hp4]
  have hA : (input.take (16 + 16 * j)).length = 16 + 16 * j := by simp; omega
  have hAB : (input.take (16 + 16 * j) ++ be32 c).length = 16 + 16 * j + 4 := by
    simp only [List.length_append, hA, be32, List.length_cons, List.length_nil]
  have hlenE : (input.take (16 + 16 * j) ++ be32 c ++ input.drop (16 + 16 * j + 4)).length
      = input.length := by
    simp only [List.length_append, hA, List.length_drop, be32,
      List.length_cons, List.length_nil]
    omega
  have htakeE : (input.take (16 + 16 * j) ++ be32 c ++ input.drop (16 + 16 * j + 4)).take 12
      = input.take 12 := by
    rw [List.take_append_eq_append_take, hAB,
      Nat.sub_eq_zero_of_le (show 12 ≤ 16 + 16 * j + 4 by omega),
      List.take_zero, List.append_nil,
      List.take_append_eq_append_take, hA,
      Nat.sub_eq_zero_of_le (show 12 ≤ 16 + 16 * j by omega),
      List.take_zero, List.append_nil,
      List.take_take, Nat.min_eq_left (show 12 ≤ 16 + 16 * j by omega)]
  have hdropE : (input.take (16 + 16 * j) ++ be32 c ++ input.drop (16 + 16 * j + 4)).drop 12
      = (input.drop 12).take (16 * j + 4) ++ be32 c ++ (input.drop 12).drop (16 * j + 8) := by
    rw [List.drop_append_eq_append_drop, hAB,
      Nat.sub_eq_zero_of_le (show 12 ≤ 16 + 16 * j + 4 by omega), List.drop_zero,
      List.drop_append_eq_append_drop, hA,
      Nat.sub_eq_zero_of_le (show 12 ≤ 16 + 16 * j by omega), List.drop_zero,
      List.drop_take, show 16 + 16 * j - 12 = 16 * j + 4 by omega,
      List.drop_drop, show 16 + 16 * j + 4 = 12 + (16 * j + 8) by omega]
  have h12 : 12 ≤ input.length := by omega
  have h12E : 12 ≤ (input.take (16 + 16 * j) ++ be32 c
      ++ input.drop (16 + 16 * j + 4)).length := by
    rw [hlenE]; omega
  rw [hE]
  unfold openFontPhase1
  rw [verifyHeader_congr input
    (input.take (16 + 16 * j) ++ be32 c ++ input.drop (16 + 16 * j + 4)) h12 h12E htakeE]
  cases hV : verifyHeader input with
  | panic => rfl
  | fail e => rfl
  | ok p =>
    obtain ⟨nt, rest⟩ := p
    obtain ⟨h12len, hnt_eq, hrest⟩ := verifyHeader_ok_rest input nt rest hV
    subst hrest
    dsimp only
    rw [hdropE]
    obtain ⟨recs, recs', h0, h0', hrel⟩ :=
      readRecords_csum_window j nt (input.drop 12) (be32 c)
        (by omega) (by simp only [List.length_drop]; omega) rfl
    rw [h0, h0']
    dsimp only
    rw [hlenE]
    exact (openFontLoop_rel (sortRecs_rel hrel) _).symm

/-- Witness for C6: a one-table font whose single `maxp` record carries
checksum 7; overwriting the declared checksum with 99 leaves the parse
identical. -/
theorem open_font_checksum_nonfatal_witness :
    12 + 16 * numTablesOf ([0, 1, 0, 0, 0, 1, 0, 16, 0, 0, 0, 0,
        109, 97, 120, 112, 0, 0, 0, 7, 0, 0, 0, 28, 0, 0, 0, 6,
        0, 0, 80, 0, 0, 5] : List Nat)
      ≤ ([0, 1, 0, 0, 0, 1, 0, 16, 0, 0, 0, 0,
        109, 97, 120, 112, 0, 0, 0, 7, 0, 0, 0, 28, 0, 0, 0, 6,
        0, 0, 80, 0, 0, 5] : List Nat).length ∧
    openFontPhase1 (writeBytesAt [0, 1, 0, 0, 0, 1, 0, 16, 0, 0, 0, 0,
        109, 97, 120, 112, 0, 0, 0, 7, 0, 0, 0, 28, 0, 0, 0, 6,
        0, 0, 80, 0, 0, 5] 16 (be32 99))
      = openFontPhase1 [0, 1, 0, 0, 0, 1, 0, 16, 0, 0, 0, 0,
        109, 97, 120, 112, 0, 0, 0, 7, 0, 0, 0, 28, 0, 0, 0, 6,
        0, 0, 80, 0, 0, 5] :=
  ⟨by decide,
   open_font_checksum_nonfatal [0, 1, 0, 0, 0, 1, 0, 16, 0, 0, 0, 0,
        109, 97, 120, 112, 0, 0, 0, 7, 0, 0, 0, 28, 0, 0, 0, 6,
        0, 0, 80, 0, 0, 5] 0 99 (by decide) (by decide) (by decide)⟩

end GlFont
